import Mathlib

/-!
Verification of the transcript-indexer core of this repository against its
specification.  The Rust sources are shallowly embedded: pure functions become
Lean functions, the SQLite store becomes an explicit record of row lists, and
each SQL statement executed by the code is translated to the corresponding
pure list transformation (including trigger effects).  Machine integers
(usize / i64) are modelled as Nat / Int; Rust strings are Lean strings whose
UTF-8 byte length is computed explicitly.
-/

namespace TranscriptIndex

/-! ## JSON values (serde_json::Value)

Strings carry their character data; `num` models integer JSON numbers (the
only numeric payloads inspected by the code, via `as_i64`); object entries are
kept as an association list in the order the serde map iterates them. -/

inductive Json where
| str (s : String)
| num (n : Int)
| bool (b : Bool)
| null
| arr (l : List Json)
| obj (m : List (String × Json))

/-! ## Content trimmer (crates/transcript-indexer/src/content_trimmer.rs) -/

/-- UTF-8 encoded size in bytes of one character (Rust `char::len_utf8`). -/
def csize (c : Char) : Nat :=
  if c.val < 0x80 then 1 else if c.val < 0x800 then 2
  else if c.val < 0x10000 then 3 else 4

/-- UTF-8 byte length of a character list. -/
def bytelenL : List Char → Nat
| [] => 0
| c :: cs => csize c + bytelenL cs

/-- UTF-8 byte length of a string (Rust `str::len`). -/
def bytelen (s : String) : Nat := bytelenL s.data

/-- Longest prefix of complete characters whose total byte size fits the
budget; this is what walking back from a byte index to the previous char
boundary yields. -/
def takeBytes : Nat → List Char → List Char
| _, [] => []
| budget, c :: cs => if csize c ≤ budget then c :: takeBytes (budget - csize c) cs else []

/-- `truncate_at_char_boundary`: at most `maxLen` bytes of complete
characters, the whole string when it already fits. -/
def truncate_at_char_boundary (s : String) (maxLen : Nat) : String :=
  if bytelen s ≤ maxLen then s else String.mk (takeBytes maxLen s.data)

/-- Decimal digit rendering of one digit value (`Nat.digitChar`). -/
def decDigit (n : Nat) : Char := Nat.digitChar n

/-- Worker for `decRepr`: prepends the decimal digits of `n` to `acc`.
`fuel` only bounds the recursion; `decRepr` passes enough for any input. -/
def decReprAux : Nat → Nat → List Char → List Char
| 0, _, acc => acc
| fuel + 1, n, acc =>
    let acc' := decDigit (n % 10) :: acc
    if n < 10 then acc' else decReprAux fuel (n / 10) acc'

/-- Decimal rendering of a natural number, as `format!("{}", n)` prints a
usize. -/
def decRepr (n : Nat) : List Char := decReprAux (n + 1) n []

/-- Maximum length of a trimmed preview. -/
def PREVIEW_LENGTH : Nat := 500

/-- Strings longer than this are candidates for trimming. -/
def LARGE_THRESHOLD : Nat := 1024

/-- Handler results use a higher threshold. -/
def HANDLER_THRESHOLD : Nat := 4096

/-- Tools whose `input` should be preserved in full. -/
def FULL_PAYLOAD_TOOLS : List String := ["TodoWrite", "Task"]

/-- Field names whose string values should never be trimmed. -/
def FULL_PAYLOAD_FIELDS : List String := ["prompt"]

/-- Characters between preview and count in the trim marker. -/
def TRIM_MARKER_PRE : List Char := (" [trimmed from ").data

/-- Characters after the count in the trim marker. -/
def TRIM_MARKER_POST : List Char := (" chars]").data

/-- The replacement for an over-long string leaf:
`preview + " [trimmed from N chars]"`. -/
def trimmedLeaf (s : String) : String :=
  String.mk ((truncate_at_char_boundary s PREVIEW_LENGTH).data
    ++ TRIM_MARKER_PRE ++ decRepr (bytelen s) ++ TRIM_MARKER_POST)

mutual
/-- `trim_value`: deep-walk, trimming string leaves that exceed `threshold`
bytes; `prompt` entries are passed through verbatim; other value kinds pass
through unchanged. -/
def trim_value : Json → Nat → Json
| .str s, t => if bytelen s > t then .str (trimmedLeaf s) else .str s
| .obj m, t => .obj (trimObjEntries m t)
| .arr l, t => .arr (trimArrElems l t)
| .num n, _ => .num n
| .bool b, _ => .bool b
| .null, _ => .null

/-- Object entries of `trim_value`: protected fields are cloned verbatim. -/
def trimObjEntries : List (String × Json) → Nat → List (String × Json)
| [], _ => []
| (k, v) :: rest, t =>
    (k, if k ∈ FULL_PAYLOAD_FIELDS then v else trim_value v t) :: trimObjEntries rest t

/-- Array elements of `trim_value`. -/
def trimArrElems : List Json → Nat → List Json
| [], _ => []
| v :: rest, t => trim_value v t :: trimArrElems rest t
end

/-- `trim_input_json` (the JSON value whose serialization is returned):
full payload for protected tools, otherwise trimmed at `LARGE_THRESHOLD`. -/
def trim_input_json (input : Json) (tool_name : String) : Json :=
  if tool_name ∈ FULL_PAYLOAD_TOOLS then input else trim_value input LARGE_THRESHOLD

/-- `trim_context_json` as a value transformation. -/
def trim_context_json (context : Json) : Json := trim_value context LARGE_THRESHOLD

/-- `trim_handler_results` as a value transformation. -/
def trim_handler_results (results : Json) : Json := trim_value results HANDLER_THRESHOLD

/-- `trim_raw_transcript_line` as a value transformation. -/
def trim_raw_transcript_line (parsed : Json) : Json := trim_value parsed LARGE_THRESHOLD

/-! ## Structural facts about the trimmer -/

/-- `OccursIn w v`: `w` occurs as a sub-value of `v`, at any nesting depth
(including `v` itself). -/
inductive OccursIn (w : Json) : Json → Prop
| refl : OccursIn w w
| inArr {x : Json} {l : List Json} : x ∈ l → OccursIn w x → OccursIn w (.arr l)
| inObj {k : String} {x : Json} {m : List (String × Json)} :
    (k, x) ∈ m → OccursIn w x → OccursIn w (.obj m)

theorem mem_trimObjEntries_protected {k : String} {x : Json}
    (t : Nat) (hk : k ∈ FULL_PAYLOAD_FIELDS) :
    ∀ m : List (String × Json), (k, x) ∈ m → (k, x) ∈ trimObjEntries m t := by
  intro m
  induction m with
  | nil => intro hm; cases hm
  | cons p rest ih =>
      intro hm
      rcases List.mem_cons.mp hm with hm1 | hm1
      · subst hm1; simp [trimObjEntries, hk]
      · obtain ⟨k', v'⟩ := p
        simp only [trimObjEntries, List.mem_cons]
        exact Or.inr (ih hm1)

theorem mem_trimObjEntries_other {k : String} {x : Json}
    (t : Nat) (hk : k ∉ FULL_PAYLOAD_FIELDS) :
    ∀ m : List (String × Json), (k, x) ∈ m → (k, trim_value x t) ∈ trimObjEntries m t := by
  intro m
  induction m with
  | nil => intro hm; cases hm
  | cons p rest ih =>
      intro hm
      rcases List.mem_cons.mp hm with hm1 | hm1
      · subst hm1; simp [trimObjEntries, hk]
      · obtain ⟨k', v'⟩ := p
        simp only [trimObjEntries, List.mem_cons]
        exact Or.inr (ih hm1)

theorem mem_trimArrElems {x : Json} (t : Nat) :
    ∀ l : List Json, x ∈ l → trim_value x t ∈ trimArrElems l t := by
  intro l
  induction l with
  | nil => intro hx; cases hx
  | cons y rest ih =>
      intro hx
      rcases List.mem_cons.mp hx with hx1 | hx1
      · subst hx1; simp [trimArrElems]
      · simp only [trimArrElems, List.mem_cons]
        exact Or.inr (ih hx1)

/-- C4 core: any object bearing a `"prompt"` entry that occurs anywhere in
`v` reappears after trimming with that entry byte-for-byte intact. -/
theorem trim_value_keeps_prompt_entry (v : Json) (t : Nat)
    (m : List (String × Json)) (x : Json)
    (hocc : OccursIn (.obj m) v) (hx : ("prompt", x) ∈ m) :
    ∃ m', OccursIn (.obj m') (trim_value v t) ∧ ("prompt", x) ∈ m' := by
  induction hocc with
  | refl =>
      exact ⟨trimObjEntries m t, OccursIn.refl,
        mem_trimObjEntries_protected t (by simp [FULL_PAYLOAD_FIELDS]) m hx⟩
  | inArr hmem _ ih =>
      obtain ⟨m', hm', hxm'⟩ := ih
      exact ⟨m', OccursIn.inArr (mem_trimArrElems t _ hmem) hm', hxm'⟩
  | @inObj k y m₂ hmem hsub ih =>
      by_cases hk : k ∈ FULL_PAYLOAD_FIELDS
      · exact ⟨m, OccursIn.inObj (mem_trimObjEntries_protected t hk m₂ hmem) hsub, hx⟩
      · obtain ⟨m', hm', hxm'⟩ := ih
        exact ⟨m', OccursIn.inObj (mem_trimObjEntries_other t hk m₂ hmem) hm', hxm'⟩

/-! ## Idempotence machinery -/

/-- `StrLeaf s v`: the string `s` occurs as a string leaf of `v`. -/
inductive StrLeaf (s : String) : Json → Prop
| here : StrLeaf s (.str s)
| inArr {x : Json} {l : List Json} : x ∈ l → StrLeaf s x → StrLeaf s (.arr l)
| inObj {k : String} {x : Json} {m : List (String × Json)} :
    (k, x) ∈ m → StrLeaf s x → StrLeaf s (.obj m)

/-- Rust `usize::MAX + 1`: string lengths are below this bound. -/
def USIZE : Nat := 2 ^ 64

/-- Every string leaf of `v` fits in a usize, as any Rust `String` does. -/
def StrBounded (v : Json) : Prop := ∀ s : String, StrLeaf s v → bytelen s < USIZE

theorem strBounded_of_arr {l : List Json} (h : StrBounded (.arr l)) {x : Json}
    (hx : x ∈ l) : StrBounded x :=
  fun s hs => h s (StrLeaf.inArr hx hs)

theorem strBounded_of_obj {m : List (String × Json)} (h : StrBounded (.obj m))
    {k : String} {x : Json} (hx : (k, x) ∈ m) : StrBounded x :=
  fun s hs => h s (StrLeaf.inObj hx hs)

theorem bytelenL_append (a b : List Char) :
    bytelenL (a ++ b) = bytelenL a + bytelenL b := by
  induction a with
  | nil => simp [bytelenL]
  | cons c cs ih => simp [bytelenL, ih]; omega

theorem bytelenL_replicate (n : Nat) (c : Char) :
    bytelenL (List.replicate n c) = n * csize c := by
  induction n with
  | zero => simp [bytelenL]
  | succ n ih => simp [List.replicate, bytelenL, ih]; ring

theorem takeBytes_bytelen_le (budget : Nat) (l : List Char) :
    bytelenL (takeBytes budget l) ≤ budget := by
  induction l generalizing budget with
  | nil => simp [takeBytes, bytelenL]
  | cons c cs ih =>
      simp only [takeBytes]
      split
      · next h =>
          have := ih (budget - csize c)
          simp only [bytelenL]
          omega
      · simp [bytelenL]

theorem truncate_bytelen_le (s : String) (n : Nat) :
    bytelen (truncate_at_char_boundary s n) ≤ n := by
  unfold truncate_at_char_boundary
  split
  · next h => exact h
  · exact takeBytes_bytelen_le n s.data

theorem csize_digitChar {n : Nat} (h : n < 10) : csize (Nat.digitChar n) = 1 := by
  interval_cases n <;> decide

theorem decReprAux_bytelen_le (fuel : Nat) :
    ∀ (k n : Nat) (acc : List Char), n < 10 ^ (k + 1) →
      bytelenL (decReprAux fuel n acc) ≤ (k + 1) + bytelenL acc := by
  induction fuel with
  | zero => intro k n acc _; simp only [decReprAux]; omega
  | succ fuel ih =>
      intro k n acc hn
      simp only [decReprAux]
      have hd : csize (decDigit (n % 10)) = 1 :=
        csize_digitChar (Nat.mod_lt _ (by omega))
      split
      · simp only [bytelenL, hd]; omega
      · next h =>
          match k with
          | 0 => omega
          | k + 1 =>
              have hdiv : n / 10 < 10 ^ (k + 1) := by
                rw [Nat.div_lt_iff_lt_mul (by omega)]
                calc n < 10 ^ (k + 2) := hn
                _ = 10 ^ (k + 1) * 10 := by ring
              have := ih k (n / 10) (decDigit (n % 10) :: acc) hdiv
              simp only [bytelenL, hd] at this
              omega

theorem decRepr_bytelen_le {n : Nat} (h : n < USIZE) : bytelenL (decRepr n) ≤ 20 := by
  have h10 : n < 10 ^ 20 := lt_of_lt_of_le h (by unfold USIZE; norm_num)
  have := decReprAux_bytelen_le (n + 1) 19 n [] h10
  simpa [decRepr, bytelenL] using this

theorem trimmedLeaf_bytelen_le {s : String} (h : bytelen s < USIZE) :
    bytelen (trimmedLeaf s) ≤ 542 := by
  have h1 : bytelenL (truncate_at_char_boundary s PREVIEW_LENGTH).data ≤ 500 :=
    truncate_bytelen_le s PREVIEW_LENGTH
  have h2 : bytelenL TRIM_MARKER_PRE = 15 := by decide
  have h3 : bytelenL (decRepr (bytelen s)) ≤ 20 := decRepr_bytelen_le h
  have h4 : bytelenL TRIM_MARKER_POST = 7 := by decide
  show bytelenL ((truncate_at_char_boundary s PREVIEW_LENGTH).data
    ++ TRIM_MARKER_PRE ++ decRepr (bytelen s) ++ TRIM_MARKER_POST) ≤ 542
  rw [bytelenL_append, bytelenL_append, bytelenL_append]
  omega

theorem trimArrElems_idem (t : Nat) (l : List Json)
    (h : ∀ x ∈ l, trim_value (trim_value x t) t = trim_value x t) :
    trimArrElems (trimArrElems l t) t = trimArrElems l t := by
  induction l with
  | nil => simp [trimArrElems]
  | cons x rest ih =>
      simp only [trimArrElems]
      rw [h x (by simp), ih (fun y hy => h y (by simp [hy]))]

theorem trimObjEntries_idem (t : Nat) (m : List (String × Json))
    (h : ∀ k x, (k, x) ∈ m → trim_value (trim_value x t) t = trim_value x t) :
    trimObjEntries (trimObjEntries m t) t = trimObjEntries m t := by
  induction m with
  | nil => simp [trimObjEntries]
  | cons p rest ih =>
      obtain ⟨k, x⟩ := p
      simp only [trimObjEntries]
      by_cases hk : k ∈ FULL_PAYLOAD_FIELDS
      · simp only [hk, if_pos]
        rw [ih (fun k' y hy => h k' y (by simp [hy]))]
      · simp only [hk, if_neg, not_false_iff]
        rw [h k x (by simp), ih (fun k' y hy => h k' y (by simp [hy]))]

/-- Induction over JSON trees with member hypotheses for containers. -/
theorem json_ind (P : Json → Prop)
    (hstr : ∀ s, P (.str s)) (hnum : ∀ n, P (.num n))
    (hbool : ∀ b, P (.bool b)) (hnull : P .null)
    (harr : ∀ l, (∀ x ∈ l, P x) → P (.arr l))
    (hobj : ∀ m, (∀ k x, (k, x) ∈ m → P x) → P (.obj m)) :
    ∀ v, P v := by
  have key : ∀ n (v : Json), sizeOf v ≤ n → P v := by
    intro n
    induction n with
    | zero => intro v hv; cases v <;> simp_all
    | succ n ih =>
        intro v hv
        cases v with
        | str s => exact hstr s
        | num k => exact hnum k
        | bool b => exact hbool b
        | null => exact hnull
        | arr l =>
            refine harr l (fun x hx => ih x ?_)
            have h1 := List.sizeOf_lt_of_mem hx
            simp only [Json.arr.sizeOf_spec] at hv
            omega
        | obj m =>
            refine hobj m (fun k x hx => ih x ?_)
            have h1 := List.sizeOf_lt_of_mem hx
            have h2 : sizeOf x < sizeOf (k, x) := by simp
            simp only [Json.obj.sizeOf_spec] at hv
            omega
  exact fun v => key (sizeOf v) v le_rfl

/-- Idempotence of `trim_value` at any threshold that can hold a trimmed
leaf (both documented thresholds qualify). -/
theorem trim_value_idem (t : Nat) (ht : 542 ≤ t) :
    ∀ v, StrBounded v → trim_value (trim_value v t) t = trim_value v t := by
  intro v
  induction v using json_ind with
  | hstr s =>
      intro hb
      by_cases h : bytelen s > t
      · have hlt : bytelen s < USIZE := hb s StrLeaf.here
        have hsmall : ¬ bytelen (trimmedLeaf s) > t := by
          have := trimmedLeaf_bytelen_le hlt
          omega
        simp [trim_value, h, hsmall]
      · simp [trim_value, h]
  | hnum n => intro _; simp [trim_value]
  | hbool b => intro _; simp [trim_value]
  | hnull => intro _; simp [trim_value]
  | harr l ih =>
      intro hb
      simp only [trim_value]
      rw [trimArrElems_idem t l (fun x hx => ih x hx (strBounded_of_arr hb hx))]
  | hobj m ih =>
      intro hb
      simp only [trim_value]
      rw [trimObjEntries_idem t m (fun k x hx => ih k x hx (strBounded_of_obj hb hx))]

/-- C4: for every JSON value `v` and every threshold, trimming preserves
protected fields: whenever an object occurring in `v` (at any nesting depth)
has a key named "prompt", the trimmed result contains an object with that key
bound to a byte-for-byte identical value, regardless of the value's length. -/
theorem trim_preserves_prompt_field (v : Json) (t : Nat)
    (m : List (String × Json)) (x : Json)
    (hocc : OccursIn (.obj m) v) (hx : ("prompt", x) ∈ m) :
    ∃ m', OccursIn (.obj m') (trim_value v t) ∧ ("prompt", x) ∈ m' :=
  trim_value_keeps_prompt_entry v t m x hocc hx

/-- The inner object of `promptSample`, with a long protected field. -/
def promptInner : List (String × Json) :=
  [("prompt", .str (String.mk (List.replicate 1030 'p'))), ("big", .str "other")]

/-- A sample value with a long protected field nested one object deep. -/
def promptSample : Json := .obj [("a", .obj promptInner)]

/-- Witness for C4 at a concrete input whose prompt value exceeds every
documented threshold. -/
theorem trim_preserves_prompt_field_witness :
    OccursIn (.obj promptInner) promptSample ∧
    ("prompt", Json.str (String.mk (List.replicate 1030 'p'))) ∈ promptInner ∧
    ∃ m', OccursIn (.obj m') (trim_value promptSample 1024) ∧
      ("prompt", Json.str (String.mk (List.replicate 1030 'p'))) ∈ m' := by
  have hocc : OccursIn (.obj promptInner) promptSample :=
    OccursIn.inObj (k := "a") (m := [("a", .obj promptInner)])
      (by simp) OccursIn.refl
  exact ⟨hocc, by simp [promptInner],
    trim_preserves_prompt_field promptSample 1024 _ _ hocc (by simp [promptInner])⟩

/-- C9: the content trimmer is idempotent at the same threshold, for each of
the two documented thresholds (1024 bytes generic, 4096 bytes for handler
results), on any value whose string leaves fit in a Rust usize. -/
theorem trimmer_idempotent_documented_thresholds (v : Json) (hb : StrBounded v) :
    trim_value (trim_value v LARGE_THRESHOLD) LARGE_THRESHOLD
        = trim_value v LARGE_THRESHOLD ∧
    trim_value (trim_value v HANDLER_THRESHOLD) HANDLER_THRESHOLD
        = trim_value v HANDLER_THRESHOLD :=
  ⟨trim_value_idem LARGE_THRESHOLD (by decide) v hb,
   trim_value_idem HANDLER_THRESHOLD (by decide) v hb⟩

/-- A sample value with one string leaf above the generic threshold. -/
def bigLeafSample : Json := .obj [("big", .str (String.mk (List.replicate 1030 'x')))]

/-- Witness for C9 at a concrete input that the trimmer actually rewrites. -/
theorem trimmer_idempotent_documented_thresholds_witness :
    StrBounded bigLeafSample ∧
    (trim_value (trim_value bigLeafSample LARGE_THRESHOLD) LARGE_THRESHOLD
        = trim_value bigLeafSample LARGE_THRESHOLD ∧
     trim_value (trim_value bigLeafSample HANDLER_THRESHOLD) HANDLER_THRESHOLD
        = trim_value bigLeafSample HANDLER_THRESHOLD) := by
  have hb : StrBounded bigLeafSample := by
    intro s h
    cases h with
    | inObj hm hs =>
        cases hm with
        | head =>
            cases hs
            show bytelenL (List.replicate 1030 'x') < USIZE
            rw [bytelenL_replicate]
            decide
        | tail _ hm2 => cases hm2
  exact ⟨hb, trimmer_idempotent_documented_thresholds bigLeafSample hb⟩

/-! ## Turn correlation (crates/transcript-indexer/src/correlation.rs)

Timestamps are TEXT columns compared by SQLite's binary collation, a linear
order; the model is parametric in a linearly ordered timestamp type `τ`.
Rows carry exactly the columns the correlation statements read or write;
the `updated` / `sessions` counters of `CorrelationResult` are not modelled. -/

/-- A `lines` row as seen by correlation. -/
structure LineRow (τ : Type) where
  session_id : String
  uuid : String
  timestamp : τ
  turn_id : Option String
  turn_sequence : Option Int
  session_name : Option String
deriving DecidableEq

/-- A `hook_events` row as seen by correlation. -/
structure HookEvent (τ : Type) where
  session_id : String
  timestamp : τ
  event_type : String
  turn_id : Option String
  turn_sequence : Option Int
  session_name : Option String
deriving DecidableEq

variable {τ : Type} [LinearOrder τ]

/-- `session_name` of the most recent SessionStart event with a non-null
name (`ORDER BY timestamp DESC LIMIT 1`; ties broken arbitrarily by SQLite,
here by favouring the later row). -/
def latestName (sid : String) (evs : List (HookEvent τ)) : Option String :=
  let cands := evs.filterMap (fun e =>
    if e.session_id = sid ∧ e.event_type = "SessionStart" then
      e.session_name.map (fun n => (e.timestamp, n))
    else none)
  (cands.foldl (fun acc c =>
    match acc with
    | none => some c
    | some b => if b.1 ≤ c.1 then some c else some b) none).map (fun p => p.2)

/-- Stop events of the session ordered by timestamp, as `(ts, turn_id,
turn_sequence)`.  The SQL keeps rows with non-null `turn_id`; a row whose
`turn_sequence` is NULL fails the `i64` column read and is silently dropped
by the `filter_map(…ok())` in the Rust row loop. -/
def stopsOf (sid : String) (evs : List (HookEvent τ)) : List (τ × String × Int) :=
  List.insertionSort (fun a b => a.1 ≤ b.1)
    (evs.filterMap (fun e =>
      if e.session_id = sid ∧ e.event_type = "Stop" then
        match e.turn_id, e.turn_sequence with
        | some tid, some seq => some (e.timestamp, tid, seq)
        | _, _ => none
      else none))

/-- Tool-event turn groups `(turn_id, turn_sequence, min_ts, max_ts)` for the
fallback branch, ordered by `turn_sequence` (`GROUP BY turn_id,
turn_sequence` with `MIN`/`MAX` over timestamps).  As with Stops, rows whose
`turn_id` or `turn_sequence` is NULL are dropped. -/
def toolTurnsOf (sid : String) (evs : List (HookEvent τ)) :
    List (String × Int × τ × τ) :=
  let tes := evs.filterMap (fun e =>
    if e.session_id = sid ∧
        (e.event_type = "PreToolUse" ∨ e.event_type = "PostToolUse") then
      match e.turn_id, e.turn_sequence with
      | some tid, some seq => some (tid, seq, e.timestamp)
      | _, _ => none
    else none)
  let keys := (tes.map (fun g => (g.1, g.2.1))).dedup
  let groups := keys.filterMap (fun k =>
    match tes.filterMap (fun g => if (g.1, g.2.1) = k then some g.2.2 else none) with
    | [] => none
    | t :: ts => some (k.1, k.2, ts.foldl min t, ts.foldl max t))
  List.insertionSort (fun a b => a.2.1 ≤ b.2.1) groups

/-- Distinct session ids having at least one line without turn info
(`SELECT DISTINCT session_id FROM lines WHERE turn_id IS NULL AND
session_id != ''`). -/
def sessionIds (lines : List (LineRow τ)) : List String :=
  (lines.filterMap (fun l =>
    if l.turn_id = none ∧ l.session_id ≠ "" then some l.session_id else none)).dedup

/-- Effect on one row of the `UPDATE … SET turn_id, turn_sequence,
session_name` for a Stop boundary (a NULL `session_name` parameter is
written as NULL). -/
def setStop (name : Option String) (s : τ × String × Int) (l : LineRow τ) :
    LineRow τ :=
  { l with turn_id := some s.2.1, turn_sequence := some s.2.2, session_name := name }

/-- The per-line effect of the sequence of Stop-boundary UPDATE statements:
first window `timestamp ≤ S₀.ts`, later windows `prev.ts < timestamp ≤
S_i.ts`, each guarded by `turn_id IS NULL` at the time it runs. -/
def goStops (sid : String) (name : Option String) :
    Option τ → List (τ × String × Int) → LineRow τ → LineRow τ
| _, [], l => l
| none, s :: rest, l =>
    let l' := if l.session_id = sid ∧ l.timestamp ≤ s.1 ∧ l.turn_id = none
              then setStop name s l else l
    goStops sid name (some s.1) rest l'
| some p, s :: rest, l =>
    let l' := if l.session_id = sid ∧ p < l.timestamp ∧ l.timestamp ≤ s.1 ∧
                  l.turn_id = none
              then setStop name s l else l
    goStops sid name (some s.1) rest l'

/-- The name backfill after the last Stop: only run when a session name is
known, for lines after the last boundary whose name is still NULL. -/
def afterStopsName (sid : String) (name : Option String) (lastTs : τ)
    (l : LineRow τ) : LineRow τ :=
  match name with
  | none => l
  | some nm =>
      if l.session_id = sid ∧ lastTs < l.timestamp ∧ l.session_name = none
      then { l with session_name := some nm } else l

/-- Effect on one row of the tool-turn UPDATE. -/
def setTurn (name : Option String) (g : String × Int × τ × τ) (l : LineRow τ) :
    LineRow τ :=
  { l with turn_id := some g.1, turn_sequence := some g.2.1, session_name := name }

/-- The per-line effect of the tool-turn fallback UPDATE statements:
window `[start_i, start_{i+1})` for all but the last group, `[start_last, ∞)`
for the last, each guarded by `turn_id IS NULL`. -/
def goTurns (sid : String) (name : Option String) :
    List (String × Int × τ × τ) → LineRow τ → LineRow τ
| [], l => l
| [g], l =>
    if l.session_id = sid ∧ g.2.2.1 ≤ l.timestamp ∧ l.turn_id = none
    then setTurn name g l else l
| g :: g' :: rest, l =>
    let l' := if l.session_id = sid ∧ g.2.2.1 ≤ l.timestamp ∧
                  l.timestamp < g'.2.2.1 ∧ l.turn_id = none
              then setTurn name g l else l
    goTurns sid name (g' :: rest) l'

/-- The name-only backfill used when the session has neither Stop nor tool
events. -/
def nameOnly (sid : String) (name : Option String) (l : LineRow τ) : LineRow τ :=
  match name with
  | none => l
  | some nm =>
      if l.session_id = sid ∧ l.session_name = none
      then { l with session_name := some nm } else l

/-- Branch selection of one session iteration: Stop boundaries when any
exist, else tool-turn fallback, else name-only backfill. -/
def sessionStepAux (sid : String) (name : Option String) :
    List (τ × String × Int) → List (String × Int × τ × τ) → LineRow τ → LineRow τ
| [], [], l => nameOnly sid name l
| [], g :: gs, l => goTurns sid name (g :: gs) l
| s :: rest, _, l =>
    afterStopsName sid name (((s :: rest).getLast (List.cons_ne_nil s rest)).1)
      (goStops sid name none (s :: rest) l)

/-- The per-line effect of one iteration of the session loop of
`correlate_lines_to_turns`. -/
def sessionStep (evs : List (HookEvent τ)) (sid : String) (l : LineRow τ) :
    LineRow τ :=
  sessionStepAux sid (latestName sid evs) (stopsOf sid evs) (toolTurnsOf sid evs) l

/-- `correlate_lines_to_turns`: iterate the sessions that still have
unattributed lines; every UPDATE of an iteration touches only rows of that
session, so each iteration is a pointwise map over the lines table. -/
def correlate_lines_to_turns (evs : List (HookEvent τ)) (lines : List (LineRow τ)) :
    List (LineRow τ) :=
  (sessionIds lines).foldl (fun acc sid => acc.map (sessionStep evs sid)) lines

/-! ### Correlation lemmas -/

theorem goStops_of_ne_sid {sid : String} {name : Option String} :
    ∀ (S : List (τ × String × Int)) (prev : Option τ) (l : LineRow τ),
      l.session_id ≠ sid → goStops sid name prev S l = l := by
  intro S
  induction S with
  | nil => intro prev l _; cases prev <;> rfl
  | cons s rest ih =>
      intro prev l h
      cases prev <;> simp only [goStops] <;> rw [if_neg (by simp [h]), ih _ _ h]

theorem goStops_of_turn_some {sid : String} {name : Option String} :
    ∀ (S : List (τ × String × Int)) (prev : Option τ) (l : LineRow τ),
      l.turn_id ≠ none → goStops sid name prev S l = l := by
  intro S
  induction S with
  | nil => intro prev l _; cases prev <;> rfl
  | cons s rest ih =>
      intro prev l h
      cases prev <;> simp only [goStops] <;> rw [if_neg (by simp [h]), ih _ _ h]

theorem goStops_miss {sid : String} {name : Option String} :
    ∀ (S : List (τ × String × Int)) (prev : Option τ) (l : LineRow τ),
      (∀ s ∈ S, ¬ l.timestamp ≤ s.1) → goStops sid name prev S l = l := by
  intro S
  induction S with
  | nil => intro prev l _; cases prev <;> rfl
  | cons s rest ih =>
      intro prev l h
      have hs : ¬ l.timestamp ≤ s.1 := h s (by simp)
      have hr : ∀ x ∈ rest, ¬ l.timestamp ≤ x.1 := fun x hx => h x (by simp [hx])
      cases prev <;> simp only [goStops] <;> rw [if_neg (by tauto), ih _ _ hr]

theorem goTurns_of_ne_sid {sid : String} {name : Option String} :
    ∀ (G : List (String × Int × τ × τ)) (l : LineRow τ),
      l.session_id ≠ sid → goTurns sid name G l = l := by
  intro G
  induction G with
  | nil => intro l _; rfl
  | cons g rest ih =>
      intro l h
      cases rest with
      | nil => simp only [goTurns]; rw [if_neg (by simp [h])]
      | cons g' rest' =>
          simp only [goTurns]
          rw [if_neg (by simp [h]), ih _ h]

theorem goTurns_of_turn_some {sid : String} {name : Option String} :
    ∀ (G : List (String × Int × τ × τ)) (l : LineRow τ),
      l.turn_id ≠ none → goTurns sid name G l = l := by
  intro G
  induction G with
  | nil => intro l _; rfl
  | cons g rest ih =>
      intro l h
      cases rest with
      | nil => simp only [goTurns]; rw [if_neg (by simp [h])]
      | cons g' rest' =>
          simp only [goTurns]
          rw [if_neg (by simp [h]), ih _ h]

theorem goTurns_miss {sid : String} {name : Option String} :
    ∀ (G : List (String × Int × τ × τ)) (l : LineRow τ),
      (∀ g ∈ G, ¬ g.2.2.1 ≤ l.timestamp) → goTurns sid name G l = l := by
  intro G
  induction G with
  | nil => intro l _; rfl
  | cons g rest ih =>
      intro l h
      have hg : ¬ g.2.2.1 ≤ l.timestamp := h g (by simp)
      have hr : ∀ x ∈ rest, ¬ x.2.2.1 ≤ l.timestamp := fun x hx => h x (by simp [hx])
      cases rest with
      | nil => simp only [goTurns]; rw [if_neg (by tauto)]
      | cons g' rest' =>
          simp only [goTurns]
          rw [if_neg (by tauto), ih _ hr]

theorem afterStopsName_of_ne_sid {sid : String} {name : Option String}
    {lastTs : τ} {l : LineRow τ} (h : l.session_id ≠ sid) :
    afterStopsName sid name lastTs l = l := by
  cases name with
  | none => rfl
  | some nm => simp only [afterStopsName]; rw [if_neg (by simp [h])]

theorem nameOnly_of_ne_sid {sid : String} {name : Option String}
    {l : LineRow τ} (h : l.session_id ≠ sid) : nameOnly sid name l = l := by
  cases name with
  | none => rfl
  | some nm => simp only [nameOnly]; rw [if_neg (by simp [h])]

theorem sessionStep_of_ne_sid {evs : List (HookEvent τ)} {sid : String}
    {l : LineRow τ} (h : l.session_id ≠ sid) : sessionStep evs sid l = l := by
  unfold sessionStep
  cases stopsOf sid evs with
  | nil =>
      cases toolTurnsOf sid evs with
      | nil => simp only [sessionStepAux]; exact nameOnly_of_ne_sid h
      | cons g gs => simp only [sessionStepAux]; exact goTurns_of_ne_sid _ _ h
  | cons s rest =>
      simp only [sessionStepAux]
      rw [goStops_of_ne_sid _ _ _ h]
      exact afterStopsName_of_ne_sid h

theorem setStop_session_id {name : Option String} {s : τ × String × Int}
    {l : LineRow τ} : (setStop name s l).session_id = l.session_id := rfl

theorem goStops_session_id {sid : String} {name : Option String} :
    ∀ (S : List (τ × String × Int)) (prev : Option τ) (l : LineRow τ),
      (goStops sid name prev S l).session_id = l.session_id := by
  intro S
  induction S with
  | nil => intro prev l; cases prev <;> rfl
  | cons s rest ih =>
      intro prev l
      cases prev <;> simp only [goStops] <;> rw [ih] <;> split <;> rfl

theorem goTurns_session_id {sid : String} {name : Option String} :
    ∀ (G : List (String × Int × τ × τ)) (l : LineRow τ),
      (goTurns sid name G l).session_id = l.session_id := by
  intro G
  induction G with
  | nil => intro l; rfl
  | cons g rest ih =>
      intro l
      cases rest with
      | nil => simp only [goTurns]; split <;> rfl
      | cons g' rest' => simp only [goTurns]; rw [ih]; split <;> rfl

theorem afterStopsName_session_id {sid : String} {name : Option String}
    {lastTs : τ} {l : LineRow τ} :
    (afterStopsName sid name lastTs l).session_id = l.session_id := by
  cases name with
  | none => rfl
  | some nm => simp only [afterStopsName]; split <;> rfl

theorem nameOnly_session_id {sid : String} {name : Option String}
    {l : LineRow τ} : (nameOnly sid name l).session_id = l.session_id := by
  cases name with
  | none => rfl
  | some nm => simp only [nameOnly]; split <;> rfl

theorem sessionStep_session_id {evs : List (HookEvent τ)} {sid : String}
    {l : LineRow τ} : (sessionStep evs sid l).session_id = l.session_id := by
  unfold sessionStep
  cases stopsOf sid evs with
  | nil =>
      cases toolTurnsOf sid evs with
      | nil => simp only [sessionStepAux]; exact nameOnly_session_id
      | cons g gs => simp only [sessionStepAux]; exact goTurns_session_id _ _
  | cons s rest =>
      simp only [sessionStepAux]
      rw [afterStopsName_session_id, goStops_session_id]

theorem foldl_map_sessionStep (evs : List (HookEvent τ)) :
    ∀ (sids : List String) (ls : List (LineRow τ)),
      sids.foldl (fun acc sid => acc.map (sessionStep evs sid)) ls =
        ls.map (fun l => sids.foldl (fun x sid => sessionStep evs sid x) l) := by
  intro sids
  induction sids with
  | nil => intro ls; simp
  | cons s rest ih =>
      intro ls
      simp only [List.foldl_cons]
      rw [ih (ls.map (sessionStep evs s)), List.map_map]
      rfl

theorem foldl_sessionStep_skip (evs : List (HookEvent τ)) :
    ∀ (sids : List String) (l : LineRow τ),
      (∀ s ∈ sids, s ≠ l.session_id) →
      sids.foldl (fun x sid => sessionStep evs sid x) l = l := by
  intro sids
  induction sids with
  | nil => intro l _; rfl
  | cons s rest ih =>
      intro l h
      simp only [List.foldl_cons]
      rw [sessionStep_of_ne_sid (fun hc => h s (by simp) hc.symm)]
      exact ih l (fun x hx => h x (by simp [hx]))

theorem foldl_sessionStep_eq (evs : List (HookEvent τ)) :
    ∀ (sids : List String) (l : LineRow τ),
      sids.Nodup → l.session_id ∈ sids →
      sids.foldl (fun x sid => sessionStep evs sid x) l =
        sessionStep evs l.session_id l := by
  intro sids
  induction sids with
  | nil => intro l _ h; cases h
  | cons s rest ih =>
      intro l hnd hmem
      simp only [List.foldl_cons]
      by_cases hs : s = l.session_id
      · subst hs
        have hnotin : l.session_id ∉ rest := (List.nodup_cons.mp hnd).1
        refine foldl_sessionStep_skip evs rest _ (fun x hx hc => hnotin ?_)
        rw [sessionStep_session_id] at hc
        rwa [hc] at hx
      · rw [sessionStep_of_ne_sid (fun hc => hs hc.symm)]
        exact ih l (List.nodup_cons.mp hnd).2
          (by rcases List.mem_cons.mp hmem with h | h
              · exact absurd h.symm hs
              · exact h)

theorem mem_sessionIds {lines : List (LineRow τ)} {l : LineRow τ}
    (hl : l ∈ lines) (hturn : l.turn_id = none) (hsid : l.session_id ≠ "") :
    l.session_id ∈ sessionIds lines := by
  unfold sessionIds
  rw [List.mem_dedup]
  exact List.mem_filterMap.mpr ⟨l, hl, by simp [hturn, hsid]⟩

theorem correlate_length (evs : List (HookEvent τ)) (lines : List (LineRow τ)) :
    (correlate_lines_to_turns evs lines).length = lines.length := by
  unfold correlate_lines_to_turns
  rw [foldl_map_sessionStep, List.length_map]

theorem correlate_getElem (evs : List (HookEvent τ)) (lines : List (LineRow τ))
    (i : Nat) (hi : i < lines.length)
    (hi' : i < (correlate_lines_to_turns evs lines).length)
    (hturn : lines[i].turn_id = none) (hsid : lines[i].session_id ≠ "") :
    (correlate_lines_to_turns evs lines)[i] =
      sessionStep evs (lines[i].session_id) lines[i] := by
  unfold correlate_lines_to_turns
  have hmap := foldl_map_sessionStep evs (sessionIds lines) lines
  rw [List.getElem_of_eq hmap, List.getElem_map]
  exact foldl_sessionStep_eq evs (sessionIds lines) lines[i]
    (List.nodup_dedup _)
    (mem_sessionIds (List.getElem_mem hi) hturn hsid)

theorem setStop_turn_some {name : Option String} {s : τ × String × Int}
    {l : LineRow τ} : (setStop name s l).turn_id ≠ none := by
  simp [setStop]

theorem setTurn_turn_some {name : Option String} {g : String × Int × τ × τ}
    {l : LineRow τ} : (setTurn name g l).turn_id ≠ none := by
  simp [setTurn]

theorem getElem_idx_congr {α : Type} (l : List α) {i j : Nat} (h : i = j)
    (hi : i < l.length) (hj : j < l.length) : l[i] = l[j] := by
  subst h; rfl

/-- `goStops` hits exactly the first window that contains the timestamp:
every earlier boundary lies strictly below it, the window's lower bound holds
and its upper bound contains it. -/
theorem goStops_hit {sid : String} {name : Option String} :
    ∀ (S : List (τ × String × Int)) (prev : Option τ) (l : LineRow τ) (j : Nat)
      (hj : j < S.length),
      l.session_id = sid → l.turn_id = none →
      (∀ k (hk : k < j), (S[k]).1 < l.timestamp) →
      (j = 0 → ∀ p, prev = some p → p < l.timestamp) →
      l.timestamp ≤ (S[j]).1 →
      goStops sid name prev S l = setStop name S[j] l := by
  intro S
  induction S with
  | nil => intro prev l j hj; exact absurd hj (by simp)
  | cons s rest ih =>
      intro prev l j hj hsid hturn hmiss hprev hhit
      match j with
      | 0 =>
          have hhit0 : l.timestamp ≤ s.1 := by simpa using hhit
          cases prev with
          | none =>
              simp only [goStops]
              rw [if_pos ⟨hsid, hhit0, hturn⟩]
              simpa using goStops_of_turn_some rest (some s.1) _ setStop_turn_some
          | some p =>
              have hp : p < l.timestamp := hprev rfl p rfl
              simp only [goStops]
              rw [if_pos ⟨hsid, hp, hhit0, hturn⟩]
              simpa using goStops_of_turn_some rest (some s.1) _ setStop_turn_some
      | j' + 1 =>
          have hs0 : s.1 < l.timestamp := by simpa using hmiss 0 (by omega)
          have hnle : ¬ l.timestamp ≤ s.1 := not_le.mpr hs0
          have hrec := ih (some s.1) l j' (by simpa using Nat.lt_of_succ_lt_succ hj)
            hsid hturn
            (fun k hk => by simpa using hmiss (k + 1) (by omega))
            (fun _ p hp => by cases hp; exact hs0)
            (by simpa using hhit)
          cases prev with
          | none =>
              simp only [goStops]
              rw [if_neg (by tauto)]
              simpa using hrec
          | some p =>
              simp only [goStops]
              rw [if_neg (by tauto)]
              simpa using hrec

/-- `goTurns` hits window `j` when all earlier windows are exhausted
(their right end lies at or below the timestamp) and window `j` contains it. -/
theorem goTurns_hit_mid {sid : String} {name : Option String} :
    ∀ (G : List (String × Int × τ × τ)) (l : LineRow τ) (j : Nat)
      (hj : j + 1 < G.length),
      l.session_id = sid → l.turn_id = none →
      (∀ k (hk : k < j), (G[k + 1]).2.2.1 ≤ l.timestamp) →
      (G[j]).2.2.1 ≤ l.timestamp → l.timestamp < (G[j + 1]).2.2.1 →
      goTurns sid name G l = setTurn name G[j] l := by
  intro G
  induction G with
  | nil => intro l j hj; exact absurd hj (by simp)
  | cons g rest ih =>
      intro l j hj hsid hturn hmiss hlow hhigh
      cases rest with
      | nil => simp at hj
      | cons g' rest' =>
          match j with
          | 0 =>
              have hlo : g.2.2.1 ≤ l.timestamp := by simpa using hlow
              have hhi : l.timestamp < g'.2.2.1 := by simpa using hhigh
              simp only [goTurns]
              rw [if_pos ⟨hsid, hlo, hhi, hturn⟩]
              simpa using goTurns_of_turn_some (g' :: rest') _ setTurn_turn_some
          | j' + 1 =>
              have hfirst : g'.2.2.1 ≤ l.timestamp := by
                simpa using hmiss 0 (by omega)
              have hrec := ih l j' (by simpa using Nat.lt_of_succ_lt_succ hj)
                hsid hturn
                (fun k hk => by simpa using hmiss (k + 1) (by omega))
                (by simpa using hlow) (by simpa using hhigh)
              simp only [goTurns]
              rw [if_neg (fun hc => absurd hc.2.2.1 (not_lt.mpr hfirst))]
              simpa using hrec

/-- The last `goTurns` window is right-open: it fires whenever it is reached
with its start at or below the timestamp. -/
theorem goTurns_hit_last {sid : String} {name : Option String} :
    ∀ (G : List (String × Int × τ × τ)) (hne : G ≠ []) (l : LineRow τ),
      l.session_id = sid → l.turn_id = none →
      (∀ k (hk : k + 1 < G.length), (G[k + 1]).2.2.1 ≤ l.timestamp) →
      (G.getLast hne).2.2.1 ≤ l.timestamp →
      goTurns sid name G l = setTurn name (G.getLast hne) l := by
  intro G
  induction G with
  | nil => intro hne; exact absurd rfl hne
  | cons g rest ih =>
      intro hne l hsid hturn hmiss hlast
      cases rest with
      | nil =>
          simp only [List.getLast_singleton] at hlast ⊢
          simp only [goTurns]
          rw [if_pos ⟨hsid, hlast, hturn⟩]
      | cons g' rest' =>
          have hne' : (g' :: rest') ≠ [] := List.cons_ne_nil _ _
          have hgl : (g :: g' :: rest').getLast hne = (g' :: rest').getLast hne' :=
            List.getLast_cons hne'
          have hfirst : g'.2.2.1 ≤ l.timestamp := by simpa using hmiss 0 (by simp)
          have hrec := ih hne' l hsid hturn
            (fun k hk => by simpa using hmiss (k + 1) (by simp at hk ⊢; omega))
            (by rw [hgl] at hlast; exact hlast)
          simp only [goTurns]
          rw [if_neg (fun hc => absurd hc.2.2.1 (not_lt.mpr hfirst)), hrec, hgl]

theorem afterStopsName_setStop {sid : String} {name : Option String}
    {lastTs : τ} {s : τ × String × Int} {l : LineRow τ} :
    afterStopsName sid name lastTs (setStop name s l) = setStop name s l := by
  cases name with
  | none => rfl
  | some nm =>
      simp only [afterStopsName]
      rw [if_neg (by simp [setStop])]

/-- Per-line characterization of a session iteration in the Stop branch. -/
theorem sessionStep_stop_char (evs : List (HookEvent τ)) (sid : String)
    (l : LineRow τ) (S : List (τ × String × Int))
    (hS : stopsOf sid evs = S) (hne : S ≠ [])
    (hsort : S.Pairwise (fun a b => a.1 < b.1))
    (hlsid : l.session_id = sid) (hturn : l.turn_id = none) :
    (l.timestamp ≤ (S.head hne).1 →
       sessionStep evs sid l = setStop (latestName sid evs) (S.head hne) l) ∧
    (∀ j (hj : j + 1 < S.length),
       (S[j]).1 < l.timestamp → l.timestamp ≤ (S[j + 1]).1 →
       sessionStep evs sid l = setStop (latestName sid evs) S[j + 1] l) ∧
    ((S.getLast hne).1 < l.timestamp → l.session_name = none →
       sessionStep evs sid l = { l with session_name := latestName sid evs }) := by
  cases S with
  | nil => exact absurd rfl hne
  | cons s rest =>
  unfold sessionStep
  rw [hS]
  simp only [sessionStepAux]
  refine ⟨?_, ?_, ?_⟩
  · intro hle
    rw [goStops_hit (s :: rest) none l 0 (by simp) hlsid hturn
        (fun k hk => absurd hk (by omega))
        (fun _ p hp => by cases hp)
        (by simpa using hle)]
    rw [afterStopsName_setStop]
    simp
  · intro j hj h1 h2
    rw [goStops_hit (s :: rest) none l (j + 1) hj hlsid hturn
        (fun k hk => by
          rcases Nat.lt_succ_iff_lt_or_eq.mp hk with hk1 | hk1
          · exact lt_trans
              (List.pairwise_iff_getElem.mp hsort k j (by omega) (by omega) hk1) h1
          · subst hk1; exact h1)
        (fun h0 => absurd h0 (by omega))
        h2]
    rw [afterStopsName_setStop]
  · intro hgt hname
    have hmiss : ∀ x ∈ s :: rest, ¬ l.timestamp ≤ x.1 := by
      intro x hx
      obtain ⟨k, hk, hkx⟩ := List.mem_iff_getElem.mp hx
      have hlast : ((s :: rest).getLast hne).1 = ((s :: rest)[(s :: rest).length - 1]).1 := by
        rw [List.getLast_eq_getElem]
      rcases Nat.lt_or_ge k ((s :: rest).length - 1) with hk1 | hk1
      · have := List.pairwise_iff_getElem.mp hsort k ((s :: rest).length - 1)
          hk (by omega) hk1
        rw [← hkx]
        exact not_le.mpr (lt_trans this (by rw [← hlast]; exact hgt))
      · have hkeq : k = (s :: rest).length - 1 := by omega
        subst hkeq
        rw [← hkx]
        exact not_le.mpr (hlast ▸ hgt)
    rw [goStops_miss _ _ _ hmiss]
    cases hn : latestName sid evs with
    | none =>
        show l = { l with session_name := none }
        obtain ⟨a, b, c, d, e, f⟩ := l
        simp only at hname
        rw [hname]
    | some nm =>
        simp only [afterStopsName]
        rw [if_pos ⟨hlsid, hgt, hname⟩]

/-- Per-line characterization of a session iteration in the tool-turn
fallback branch. -/
theorem sessionStep_tool_char (evs : List (HookEvent τ)) (sid : String)
    (l : LineRow τ) (G : List (String × Int × τ × τ))
    (hstops : stopsOf sid evs = []) (hG : toolTurnsOf sid evs = G) (hne : G ≠ [])
    (hsort : G.Pairwise (fun a b => a.2.2.1 < b.2.2.1))
    (hlsid : l.session_id = sid) (hturn : l.turn_id = none) :
    (∀ j (hj : j + 1 < G.length),
       (G[j]).2.2.1 ≤ l.timestamp → l.timestamp < (G[j + 1]).2.2.1 →
       sessionStep evs sid l = setTurn (latestName sid evs) G[j] l) ∧
    ((G.getLast hne).2.2.1 ≤ l.timestamp →
       sessionStep evs sid l = setTurn (latestName sid evs) (G.getLast hne) l) ∧
    (l.timestamp < (G.head hne).2.2.1 → sessionStep evs sid l = l) := by
  cases G with
  | nil => exact absurd rfl hne
  | cons g gs =>
  unfold sessionStep
  rw [hstops, hG]
  simp only [sessionStepAux]
  refine ⟨?_, ?_, ?_⟩
  · intro j hj h1 h2
    exact goTurns_hit_mid (g :: gs) l j hj hlsid hturn
      (fun k hk => by
        have h' := List.pairwise_iff_getElem.mp hsort (k + 1) j
        rcases Nat.lt_or_ge (k + 1) j with hk1 | hk1
        · exact le_of_lt (lt_of_lt_of_le (h' (by omega) (by omega) hk1) h1)
        · have hq : k + 1 = j := by omega
          exact hq ▸ h1)
      h1 h2
  · intro hlast
    exact goTurns_hit_last (g :: gs) hne l hlsid hturn
      (fun k hk => by
        have hlg : ((g :: gs).getLast hne).2.2.1 =
            ((g :: gs)[(g :: gs).length - 1]).2.2.1 := by
          rw [List.getLast_eq_getElem]
        rcases Nat.lt_or_ge (k + 1) ((g :: gs).length - 1) with hk1 | hk1
        · have := List.pairwise_iff_getElem.mp hsort (k + 1)
            ((g :: gs).length - 1) (by omega) (by omega) hk1
          exact le_of_lt (lt_of_lt_of_le this (by rw [← hlg]; exact hlast))
        · have hkeq : k + 1 = (g :: gs).length - 1 := by omega
          rw [getElem_idx_congr (g :: gs) hkeq (by omega) (by omega)]
          exact hlg ▸ hlast)
      hlast
  · intro hfirst
    refine goTurns_miss (g :: gs) l ?_
    intro x hx
    obtain ⟨k, hk, hkx⟩ := List.mem_iff_getElem.mp hx
    have hhead : ((g :: gs).head hne).2.2.1 = ((g :: gs)[0]).2.2.1 := by simp
    rcases Nat.eq_zero_or_pos k with hk0 | hk0
    · subst hk0
      rw [← hkx]
      exact not_le.mpr (hhead ▸ hfirst)
    · have := List.pairwise_iff_getElem.mp hsort 0 k (by omega) hk hk0
      rw [← hkx]
      exact not_le.mpr (lt_trans (by rw [← hhead]; exact hfirst) this)

/-- C1 (amended): the attributing Stop boundary list consists of the Stop
events with non-null `turn_id` AND non-null `turn_sequence` (a null sequence
fails the i64 column read and the row is dropped), ordered by strictly
increasing timestamp.  `correlate_lines_to_turns` then assigns to every line
of the session with null `turn_id` and timestamp ≤ S₀.ts the triple of S₀;
to lines in (S_{i-1}.ts, S_i.ts] the triple of S_i; and to lines after the
last Stop whose `session_name` is null only the session name, leaving their
`turn_id` null. -/
theorem correlation_stop_assignment
    (evs : List (HookEvent τ)) (lines : List (LineRow τ)) (i : Nat)
    (hi : i < lines.length)
    (hi' : i < (correlate_lines_to_turns evs lines).length)
    (S : List (τ × String × Int))
    (hS : stopsOf (lines[i].session_id) evs = S) (hne : S ≠ [])
    (hsort : S.Pairwise (fun a b => a.1 < b.1))
    (hsid : lines[i].session_id ≠ "")
    (hturn : lines[i].turn_id = none) :
    (lines[i].timestamp ≤ (S.head hne).1 →
       (correlate_lines_to_turns evs lines)[i] =
         setStop (latestName (lines[i].session_id) evs) (S.head hne) lines[i]) ∧
    (∀ j (hj : j + 1 < S.length),
       (S[j]).1 < lines[i].timestamp → lines[i].timestamp ≤ (S[j + 1]).1 →
       (correlate_lines_to_turns evs lines)[i] =
         setStop (latestName (lines[i].session_id) evs) S[j + 1] lines[i]) ∧
    ((S.getLast hne).1 < lines[i].timestamp → lines[i].session_name = none →
       (correlate_lines_to_turns evs lines)[i] =
         { lines[i] with session_name := latestName (lines[i].session_id) evs }) := by
  rw [correlate_getElem evs lines i hi hi' hturn hsid]
  exact sessionStep_stop_char evs (lines[i].session_id) lines[i] S hS hne hsort
    rfl hturn

/-- Hook events of the C1 counterexample: one Stop with non-null `turn_id`
but null `turn_sequence`. -/
def c1Evs : List (HookEvent Nat) := [⟨"s1", 5, "Stop", some "t1", none, none⟩]

/-- One unattributed line at t = 3, inside the claimed window of that Stop. -/
def c1Lines : List (LineRow Nat) := [⟨"s1", "u1", 3, none, none, none⟩]

/-- C1 counterexample: the claim selects Stop events by non-null `turn_id`
alone, so it requires the line at t = 3 ≤ 5 to receive the triple ("t1",
NULL, session_name).  The code drops the boundary (its `turn_sequence` is
NULL, failing the i64 column read), and the line keeps a null `turn_id`. -/
theorem correlation_stop_claim_counterexample :
    stopsOf "s1" c1Evs = [] ∧
    correlate_lines_to_turns c1Evs c1Lines = [⟨"s1", "u1", 3, none, none, none⟩] := by
  exact ⟨by decide, by decide⟩

/-- Hook events for the C1 witness: a SessionStart naming the session and two
complete Stop boundaries. -/
def c1wEvs : List (HookEvent Nat) :=
  [⟨"s1", 0, "SessionStart", none, none, some "nm"⟩,
   ⟨"s1", 2, "Stop", some "t1", some 1, none⟩,
   ⟨"s1", 6, "Stop", some "t2", some 2, none⟩]

/-- Lines for the C1 witness: one in each region. -/
def c1wLines : List (LineRow Nat) :=
  [⟨"s1", "u1", 1, none, none, none⟩,
   ⟨"s1", "u2", 4, none, none, none⟩,
   ⟨"s1", "u3", 9, none, none, none⟩]

/-- Witness for C1 at a concrete two-boundary session: the first window
claims the line at t = 1. -/
theorem correlation_stop_assignment_witness :
    (c1wLines.get ⟨0, by decide⟩).timestamp ≤
      ((stopsOf "s1" c1wEvs).head (by decide)).1 ∧
    (correlate_lines_to_turns c1wEvs c1wLines).get ⟨0, by decide⟩ =
      setStop (latestName "s1" c1wEvs) ((stopsOf "s1" c1wEvs).head (by decide))
        (c1wLines.get ⟨0, by decide⟩) := by
  refine ⟨by decide, ?_⟩
  exact (correlation_stop_assignment c1wEvs c1wLines 0 (by decide) (by decide)
    (stopsOf "s1" c1wEvs) rfl (by decide) (by decide) (by decide) (by decide)).1
    (by decide)

/-- C6 (amended): with no Stop events, tool-event groups (keyed by non-null
`turn_id` and `turn_sequence`, ordered by `turn_sequence`, with strictly
increasing `min_ts`) attribute lines by `[group_i.min_ts,
group_{i+1}.min_ts)`, the last group right-open; a line whose timestamp
precedes the first group's `min_ts` is left entirely unchanged — null
`turn_id` and, unlike the Stop path, NO `session_name` backfill even when a
session name is known. -/
theorem correlation_tool_fallback
    (evs : List (HookEvent τ)) (lines : List (LineRow τ)) (i : Nat)
    (hi : i < lines.length)
    (hi' : i < (correlate_lines_to_turns evs lines).length)
    (hstops : stopsOf (lines[i].session_id) evs = [])
    (G : List (String × Int × τ × τ))
    (hG : toolTurnsOf (lines[i].session_id) evs = G) (hne : G ≠ [])
    (hsort : G.Pairwise (fun a b => a.2.2.1 < b.2.2.1))
    (hsid : lines[i].session_id ≠ "")
    (hturn : lines[i].turn_id = none) :
    (∀ j (hj : j + 1 < G.length),
       (G[j]).2.2.1 ≤ lines[i].timestamp →
       lines[i].timestamp < (G[j + 1]).2.2.1 →
       (correlate_lines_to_turns evs lines)[i] =
         setTurn (latestName (lines[i].session_id) evs) G[j] lines[i]) ∧
    ((G.getLast hne).2.2.1 ≤ lines[i].timestamp →
       (correlate_lines_to_turns evs lines)[i] =
         setTurn (latestName (lines[i].session_id) evs) (G.getLast hne) lines[i]) ∧
    (lines[i].timestamp < (G.head hne).2.2.1 →
       (correlate_lines_to_turns evs lines)[i] = lines[i]) := by
  rw [correlate_getElem evs lines i hi hi' hturn hsid]
  exact sessionStep_tool_char evs (lines[i].session_id) lines[i] G hstops hG hne
    hsort rfl hturn

/-- Hook events of the C6 counterexample: the session name is known and one
tool-turn group starts at t = 2. -/
def c6Evs : List (HookEvent Nat) :=
  [⟨"s2", 0, "SessionStart", none, none, some "known-name"⟩,
   ⟨"s2", 2, "PreToolUse", some "t1", some 1, none⟩]

/-- One line before the first group's `min_ts`, with a null name. -/
def c6Lines : List (LineRow Nat) := [⟨"s2", "u1", 1, none, none, none⟩]

/-- C6 counterexample: the claim says the line at t = 1 (before the first
group's `min_ts` = 2) "still receives session_name when a session name is
known"; the code's tool-turn branch `continue`s past the name-only backfill,
so the line keeps a NULL `session_name` although the name "known-name" is
known. -/
theorem correlation_tool_fallback_counterexample :
    latestName "s2" c6Evs = some "known-name" ∧
    stopsOf "s2" c6Evs = [] ∧
    toolTurnsOf "s2" c6Evs = [("t1", 1, 2, 2)] ∧
    correlate_lines_to_turns c6Evs c6Lines =
      [⟨"s2", "u1", 1, none, none, none⟩] := by
  exact ⟨by decide, by decide, by decide, by decide⟩

/-- Witness for C6: the same concrete session, applying the amended theorem's
before-first-group case to the line at t = 1. -/
theorem correlation_tool_fallback_witness :
    (c6Lines.get ⟨0, by decide⟩).timestamp <
      ((toolTurnsOf "s2" c6Evs).head (by decide)).2.2.1 ∧
    (correlate_lines_to_turns c6Evs c6Lines).get ⟨0, by decide⟩ =
      c6Lines.get ⟨0, by decide⟩ := by
  refine ⟨by decide, ?_⟩
  exact (correlation_tool_fallback c6Evs c6Lines 0 (by decide) (by decide)
    (by decide) (toolTurnsOf "s2" c6Evs) rfl (by decide) (by decide) (by decide)
    (by decide)).2.2 (by decide)

/-! ## Store state and per-file ingest
(crates/transcript-indexer/src/schema.rs, indexer.rs, hook_indexer.rs)

The SQLite store is a record of row lists.  `lines_fts` is modelled as the
list of FTS index entries maintained by the triggers of schema.rs: the AFTER
INSERT trigger appends the new row's entry, the AFTER DELETE trigger would
issue the 'delete' command for the old rowid.  The REPLACE conflict
resolution of `INSERT OR REPLACE INTO lines` removes the conflicting row
directly, and since the writer never enables `PRAGMA recursive_triggers`
(off by default, see connection.rs), that implicit delete fires NO delete
trigger — SQLite's documented behaviour, verified against SQLite 3.40.
Hook inserts are plain INSERTs; `hook_events_fts` is not modelled (no claim
touches it).  Columns that hold serialized JSON (`raw` aside) are modelled
as the `Json` value being serialized. -/

/-- A row of `lines` (correlation and git columns are NULL at insert). -/
structure StoredLine where
  id : Nat
  session_id : String
  uuid : String
  parent_uuid : Option String
  line_number : Int
  type_ : String
  subtype : Option String
  timestamp : String
  slug : Option String
  role : Option String
  model : Option String
  cwd : Option String
  content : String
  raw : String
  file_path : String
deriving DecidableEq

/-- An FTS index entry of `lines_fts` as the triggers write it. -/
structure FtsEntry where
  rowid : Nat
  content : String
  session_id : String
  slug : Option String
  type_ : String
deriving DecidableEq

/-- A row of `sessions`. -/
structure SessionRow where
  file_path : String
  session_id : String
  slug : Option String
  line_count : Int
  byte_offset : Nat
  first_timestamp : Option String
  last_timestamp : Option String
  indexed_at : String
deriving DecidableEq

/-- A row of `hook_files`. -/
structure HookFileRow where
  file_path : String
  session_id : String
  event_count : Int
  byte_offset : Nat
  first_timestamp : Option String
  last_timestamp : Option String
  indexed_at : String
deriving DecidableEq

/-- A row of `hook_events`; the three serialized-JSON columns hold the value
whose `serde_json::to_string` output is stored. -/
structure StoredHook where
  id : Nat
  session_id : String
  timestamp : String
  event_type : String
  tool_use_id : Option String
  tool_name : Option String
  decision : Option String
  handler_results : Option Json
  input_json : Option Json
  context_json : Option Json
  file_path : String
  line_number : Int
  turn_id : Option String
  turn_sequence : Option Int
  session_name : Option String
  git_hash : Option String
  git_branch : Option String
  git_dirty : Option Int

/-- The store. -/
structure Db where
  lines : List StoredLine
  linesFts : List FtsEntry
  nextLineId : Nat
  sessions : List SessionRow
  hookEvents : List StoredHook
  nextHookId : Nat
  hookFiles : List HookFileRow

/-- The empty store after `init_schema`. -/
def emptyDb : Db := ⟨[], [], 1, [], [], 1, []⟩

/-- Column values of one transcript INSERT OR REPLACE. -/
structure LineInsert where
  session_id : String
  uuid : String
  parent_uuid : Option String
  line_number : Int
  type_ : String
  subtype : Option String
  timestamp : String
  slug : Option String
  role : Option String
  model : Option String
  cwd : Option String
  content : String
  raw : String
  file_path : String
deriving DecidableEq

/-- `INSERT OR REPLACE INTO lines`: REPLACE deletes any row with the same
`(session_id, uuid)` WITHOUT firing the AFTER DELETE trigger
(recursive_triggers is off), then the insert fires the AFTER INSERT trigger,
adding a `lines_fts` entry under the fresh autoincrement id. -/
def insertOrReplaceLine (db : Db) (e : LineInsert) : Db :=
  let keep := db.lines.filter
    (fun r => ¬ (r.session_id = e.session_id ∧ r.uuid = e.uuid))
  let newRow : StoredLine :=
    ⟨db.nextLineId, e.session_id, e.uuid, e.parent_uuid, e.line_number, e.type_,
     e.subtype, e.timestamp, e.slug, e.role, e.model, e.cwd, e.content, e.raw,
     e.file_path⟩
  { db with
      lines := keep ++ [newRow],
      linesFts := db.linesFts ++
        [⟨db.nextLineId, e.content, e.session_id, e.slug, e.type_⟩],
      nextLineId := db.nextLineId + 1 }

/-- Line types discarded at ingest. -/
def SKIP_TYPES : List String := ["progress", "file-history-snapshot", "queue-operation"]

/-- One transcript JSONL line after reading and (attempted) parsing.
`parsed = none` models a serde parse error; the record fields are the
values the indexer extracts from the parsed object: `content` stands for
`extract_searchable_text(parsed)` and `raw` for the stored
`trim_raw_transcript_line(parsed)` serialization. -/
structure TParsed where
  sessionId : Option String
  slug : Option String
  timestamp : Option String
  type_ : Option String
  uuid : Option String
  parentUuid : Option String
  subtype : Option String
  role : Option String
  model : Option String
  cwd : Option String
  content : String
  raw : String
deriving DecidableEq

/-- One raw line of a transcript file as the read loop sees it. -/
structure TLineInput where
  startsWithBrace : Bool
  blank : Bool
  parsed : Option TParsed
deriving DecidableEq

/-- Mutable state of the transcript read loop. -/
structure TLoopState where
  indexed : Nat
  session_id : String
  slug : Option String
  first_timestamp : Option String
  last_timestamp : Option String
  line_number : Int
  firstLine : Bool
deriving DecidableEq

/-- One iteration of the transcript line loop of `index_transcript_file`,
split into the loop-state transition and the (at most one) INSERT OR REPLACE
it performs.  The state evolution never depends on the store. -/
def tNext (filePath : String) (σ : TLoopState) (ln : TLineInput) :
    TLoopState × Option LineInsert :=
  if σ.firstLine = true ∧ ln.startsWithBrace = false then
    ({ σ with line_number := σ.line_number + 1, firstLine := false }, none)
  else
    let σ := { σ with firstLine := false }
    if ln.blank then (σ, none)
    else
      match ln.parsed with
      | none => ({ σ with line_number := σ.line_number + 1 }, none)
      | some p =>
          let sid := match p.sessionId with
            | some s => if s = "" then σ.session_id else s
            | none => σ.session_id
          let slug := match p.slug with
            | some s => if s = "" then σ.slug else some s
            | none => σ.slug
          let ts := p.timestamp.getD ""
          let first_ts :=
            if σ.first_timestamp = none ∧ ts ≠ "" then some ts
            else σ.first_timestamp
          let last_ts := if ts ≠ "" then some ts else σ.last_timestamp
          let ty := p.type_.getD "unknown"
          let σ' := { σ with session_id := sid, slug := slug,
                             first_timestamp := first_ts, last_timestamp := last_ts }
          if ty ∈ SKIP_TYPES then
            ({ σ' with line_number := σ'.line_number + 1 }, none)
          else
            let uuid := p.uuid.getD ("line-" ++ toString σ.line_number)
            ({ σ' with indexed := σ'.indexed + 1,
                       line_number := σ'.line_number + 1 },
             some ⟨sid, uuid, p.parentUuid, σ.line_number, ty, p.subtype, ts,
                   slug, p.role, p.model, p.cwd, p.content, p.raw, filePath⟩)

/-- Fold step of the transcript loop over `(state, store)`. -/
def tStep (filePath : String) (st : TLoopState × Db) (ln : TLineInput) :
    TLoopState × Db :=
  ((tNext filePath st.1 ln).1,
   match (tNext filePath st.1 ln).2 with
   | none => st.2
   | some e => insertOrReplaceLine st.2 e)

/-- `INSERT OR REPLACE INTO sessions` keyed by `file_path`. -/
def upsertSession (db : Db) (r : SessionRow) : Db :=
  { db with sessions := db.sessions.filter (fun x => x.file_path ≠ r.file_path) ++ [r] }

/-- `UPDATE sessions SET line_count, byte_offset, last_timestamp, indexed_at
WHERE file_path = ?`. -/
def updateSession (db : Db) (p : String) (lineCount : Int) (off : Nat)
    (lastTs : Option String) (now : String) : Db :=
  { db with sessions := db.sessions.map (fun r =>
      if r.file_path = p then
        { r with line_count := lineCount, byte_offset := off,
                 last_timestamp := lastTs, indexed_at := now }
      else r) }

/-- Result of `index_transcript_file`. -/
structure IndexResult where
  lines_indexed : Nat
  byte_offset : Nat
  session_id : String
deriving DecidableEq

/-- `index_transcript_file`: the file is `fileSize` bytes whose lines read as
`input`; `now` is the `chrono::Utc::now` string recorded in `indexed_at`. -/
def index_transcript_file (db : Db) (filePath : String) (fileSize : Nat)
    (input : List TLineInput) (fromByteOffset : Nat) (startLineNumber : Int)
    (now : String) : IndexResult × Db :=
  if fromByteOffset ≥ fileSize then (⟨0, fromByteOffset, ""⟩, db)
  else
    let init : TLoopState :=
      ⟨0, "", none, none, none, startLineNumber, decide (0 < fromByteOffset)⟩
    let res := input.foldl (tStep filePath) (init, db)
    let σ := res.1
    let db' := res.2
    let db'' :=
      if fromByteOffset = 0 then
        upsertSession db'
          ⟨filePath, (if σ.session_id = "" then "unknown" else σ.session_id),
           σ.slug, σ.line_number - 1, fileSize, σ.first_timestamp,
           σ.last_timestamp, now⟩
      else
        updateSession db' filePath (σ.line_number - 1) fileSize
          σ.last_timestamp now
    (⟨σ.indexed, fileSize, σ.session_id⟩, db'')

/-- `Value::get` on an object (serde maps have unique keys). -/
def jGet : Json → String → Option Json
| .obj m, k => (m.find? (fun p => p.1 = k)).map (fun p => p.2)
| _, _ => none

/-- `Value::as_str`. -/
def jAsStr : Json → Option String
| .str s => some s
| _ => none

/-- `Value::as_i64` (integer numbers only, as modelled). -/
def jAsInt : Json → Option Int
| .num n => some n
| _ => none

/-- `Value::as_bool`. -/
def jAsBool : Json → Option Bool
| .bool b => some b
| _ => none

/-- `str::starts_with` at character level. -/
def startsWithL : List Char → List Char → Bool
| _, [] => true
| [], _ :: _ => false
| c :: cs, p :: ps => c = p && startsWithL cs ps

/-- `str::starts_with`. -/
def strStartsWith (s pre : String) : Bool := startsWithL s.data pre.data

/-- Accumulator of `extract_handler_data`. -/
structure HandlerData where
  turn_id : Option String
  turn_sequence : Option Int
  session_name : Option String
  git_hash : Option String
  git_branch : Option String
  git_dirty : Option Int
deriving DecidableEq

/-- One `handlerResults` entry of `extract_handler_data`: three independent
prefix tests, each updating its fields only when extraction succeeds. -/
def handlerEntryStep (acc : HandlerData) (kv : String × Json) : HandlerData :=
  let acc1 :=
    if strStartsWith kv.1 "turn-tracker" then
      match jGet kv.2 "data" with
      | some d =>
          { acc with
              turn_id := match (jGet d "turnId").bind jAsStr with
                | some s => some s
                | none => acc.turn_id,
              turn_sequence :=
                match ((jGet d "sequence").or (jGet d "turnSequence")).bind jAsInt with
                | some q => some q
                | none => acc.turn_sequence }
      | none => acc
    else acc
  let acc2 :=
    if strStartsWith kv.1 "session-naming" then
      match jGet kv.2 "data" with
      | some d =>
          { acc1 with
              session_name := match (jGet d "sessionName").bind jAsStr with
                | some s => some s
                | none => acc1.session_name }
      | none => acc1
    else acc1
  if strStartsWith kv.1 "git-tracker" then
    match (jGet kv.2 "data").bind (fun d => jGet d "gitState") with
    | some g =>
        { acc2 with
            git_hash := match (jGet g "hash").bind jAsStr with
              | some s => some s
              | none => acc2.git_hash,
            git_branch := match (jGet g "branch").bind jAsStr with
              | some s => some s
              | none => acc2.git_branch,
            git_dirty := match (jGet g "isDirty").bind jAsBool with
              | some b => some (if b then 1 else 0)
              | none => acc2.git_dirty }
    | none => acc2
  else acc2

/-- `extract_handler_data`: walk the `handlerResults` object, then fall back
to the top-level `turnId` / `turnSequence` / `sessionName` fields. -/
def extract_handler_data (hr : Option Json)
    (topTurnId : Option String) (topTurnSeq : Option Int)
    (topName : Option String) : HandlerData :=
  let base : HandlerData := ⟨none, none, none, none, none, none⟩
  let walked := match hr with
    | some (.obj entries) => entries.foldl handlerEntryStep base
    | _ => base
  { walked with
      turn_id := walked.turn_id.or topTurnId,
      turn_sequence := walked.turn_sequence.or topTurnSeq,
      session_name := walked.session_name.or topName }

/-- One hook JSONL line after reading and (attempted) parsing; the fields
are what `index_hook_file` extracts from the parsed object (`turnId`,
`turnSequence`, `sessionName` are the top-level fallback fields). -/
structure HParsed where
  sessionId : Option String
  timestamp : Option String
  eventType : Option String
  toolUseId : Option String
  toolName : Option String
  decision : Option String
  handlerResults : Option Json
  input : Option Json
  context : Option Json
  turnId : Option String
  turnSequence : Option Int
  sessionName : Option String

/-- One raw line of a hook file as the read loop sees it. -/
structure HLineInput where
  startsWithBrace : Bool
  blank : Bool
  parsed : Option HParsed

/-- Mutable state of the hook read loop. -/
structure HLoopState where
  indexed : Nat
  session_id : String
  first_timestamp : Option String
  last_timestamp : Option String
  line_number : Int
  firstLine : Bool
deriving DecidableEq

/-- Plain `INSERT INTO hook_events` (no conflict clause; deduplication is
the producer's responsibility). -/
def insertHookEvent (db : Db) (r : Nat → StoredHook) : Db :=
  { db with hookEvents := db.hookEvents ++ [r db.nextHookId],
            nextHookId := db.nextHookId + 1 }

/-- One iteration of the hook line loop of `index_hook_file`, split into the
loop-state transition and the (at most one) INSERT it performs.  Note the
stored `handler_results`, `input_json` and `context_json` are the plain
`serde_json::to_string` serializations of the parsed sub-values: the source
never calls the content trimmer here. -/
def hNext (filePath : String) (σ : HLoopState) (ln : HLineInput) :
    HLoopState × Option (Nat → StoredHook) :=
  if σ.firstLine = true ∧ ln.startsWithBrace = false then
    ({ σ with line_number := σ.line_number + 1, firstLine := false }, none)
  else
    let σ := { σ with firstLine := false }
    if ln.blank then (σ, none)
    else
      match ln.parsed with
      | none => ({ σ with line_number := σ.line_number + 1 }, none)
      | some p =>
          let sid := match p.sessionId with
            | some s => if s = "" then σ.session_id else s
            | none => σ.session_id
          let ts := p.timestamp.getD ""
          let first_ts :=
            if σ.first_timestamp = none ∧ ts ≠ "" then some ts
            else σ.first_timestamp
          let last_ts := if ts ≠ "" then some ts else σ.last_timestamp
          let event_type := p.eventType.getD ""
          let hd := extract_handler_data p.handlerResults p.turnId
            p.turnSequence p.sessionName
          ({ σ with session_id := sid, first_timestamp := first_ts,
                    last_timestamp := last_ts, indexed := σ.indexed + 1,
                    line_number := σ.line_number + 1 },
           some (fun id =>
             ⟨id, sid, ts, event_type, p.toolUseId, p.toolName, p.decision,
              p.handlerResults, p.input, p.context, filePath, σ.line_number,
              hd.turn_id, hd.turn_sequence, hd.session_name, hd.git_hash,
              hd.git_branch, hd.git_dirty⟩))

/-- Fold step of the hook loop over `(state, store)`. -/
def hStep (filePath : String) (st : HLoopState × Db) (ln : HLineInput) :
    HLoopState × Db :=
  ((hNext filePath st.1 ln).1,
   match (hNext filePath st.1 ln).2 with
   | none => st.2
   | some f => insertHookEvent st.2 f)

/-- `INSERT OR REPLACE INTO hook_files` keyed by `file_path`. -/
def upsertHookFile (db : Db) (r : HookFileRow) : Db :=
  { db with hookFiles := db.hookFiles.filter (fun x => x.file_path ≠ r.file_path) ++ [r] }

/-- `UPDATE hook_files SET event_count, byte_offset, last_timestamp,
indexed_at WHERE file_path = ?`. -/
def updateHookFile (db : Db) (p : String) (eventCount : Int) (off : Nat)
    (lastTs : Option String) (now : String) : Db :=
  { db with hookFiles := db.hookFiles.map (fun r =>
      if r.file_path = p then
        { r with event_count := eventCount, byte_offset := off,
                 last_timestamp := lastTs, indexed_at := now }
      else r) }

/-- Result of `index_hook_file`. -/
structure HookIndexResult where
  events_indexed : Nat
  byte_offset : Nat
  session_id : String
deriving DecidableEq

/-- `index_hook_file`. -/
def index_hook_file (db : Db) (filePath : String) (fileSize : Nat)
    (input : List HLineInput) (fromByteOffset : Nat) (startLineNumber : Int)
    (now : String) : HookIndexResult × Db :=
  if fromByteOffset ≥ fileSize then (⟨0, fromByteOffset, ""⟩, db)
  else
    let init : HLoopState :=
      ⟨0, "", none, none, startLineNumber, decide (0 < fromByteOffset)⟩
    let res := input.foldl (hStep filePath) (init, db)
    let σ := res.1
    let db' := res.2
    let db'' :=
      if σ.session_id = "" ∧ σ.indexed = 0 then db'
      else if fromByteOffset = 0 then
        upsertHookFile db'
          ⟨filePath, (if σ.session_id = "" then "unknown" else σ.session_id),
           σ.line_number - 1, fileSize, σ.first_timestamp, σ.last_timestamp, now⟩
      else
        updateHookFile db' filePath (σ.line_number - 1) fileSize
          σ.last_timestamp now
    (⟨σ.indexed, fileSize, σ.session_id⟩, db'')

/-! ### FTS coherence under re-ingest (C2) -/

/-- A one-record transcript file: session "s1", uuid "u1". -/
def c2Line : TLineInput :=
  ⟨true, false, some ⟨some "s1", none, some "2024-01-01T00:00:00Z", some "user",
    some "u1", none, none, none, none, none, "hello", "raw"⟩⟩

/-- The store after first ingest of that file. -/
def c2Db1 : Db := (index_transcript_file emptyDb "/t.jsonl" 100 [c2Line] 0 1 "now").2

/-- The store after re-ingesting the same file from offset 0. -/
def c2Db2 : Db := (index_transcript_file c2Db1 "/t.jsonl" 100 [c2Line] 0 1 "now").2

/-- C2 evaluation at the failing input: after the first ingest the FTS index
and `lines` are in bijection (one entry each), but re-ingesting the same
`(session_id, uuid)` key goes through INSERT OR REPLACE, whose implicit
delete fires no AFTER DELETE trigger (recursive_triggers is off), so the old
id-1 index entry is orphaned: `lines` has the single row id 2 while
`lines_fts` holds entries for rowids 1 and 2. -/
theorem fts_replace_incoherence :
    c2Db1.lines.length = 1 ∧ c2Db1.linesFts.length = 1 ∧
    c2Db2.lines.length = 1 ∧ c2Db2.linesFts.length = 2 ∧
    c2Db2.lines.map (fun r => r.id) = [2] ∧
    c2Db2.linesFts.map (fun e => e.rowid) = [1, 2] := by
  exact ⟨by decide, by decide, by decide, by decide, by decide, by decide⟩

/-! ### Cursor discipline (C3) -/

/-- `SELECT byte_offset FROM sessions WHERE file_path = ?` (row lookup). -/
def lookupSession (db : Db) (p : String) : Option SessionRow :=
  db.sessions.find? (fun r => r.file_path = p)

/-- `SELECT byte_offset FROM hook_files WHERE file_path = ?` (row lookup). -/
def lookupHookFile (db : Db) (p : String) : Option HookFileRow :=
  db.hookFiles.find? (fun r => r.file_path = p)

/-- A real hook event line: session "s1", a PreToolUse with no payloads. -/
def c3Ev : HLineInput :=
  ⟨true, false, some ⟨some "s1", some "2024-01-01T00:00:10Z", some "PreToolUse",
    some "tu1", some "Bash", none, none, none, none, none, none, none⟩⟩

/-- A blank growth line (e.g. a partially flushed record). -/
def c3Blank : HLineInput := ⟨false, true, none⟩

/-- The store after first-indexing a 50-byte hook file with one event; its
cursor row holds byte_offset 50. -/
def c3Db1 : Db := (index_hook_file emptyDb "/h.jsonl" 50 [c3Ev] 0 1 "t1").2

/-- C3 counterexample: a hook file first indexed at 50 bytes grows to 100
bytes, but the growth is one blank line.  The delta run completes with zero
events indexed, and the indexer skips the cursor write for any run indexing
zero events, so `hook_files.byte_offset` stays 50 while the file size
observed at the start of that run was 100 -- the original claim, which
states the stored cursor equals the observed file size for EVERY indexed
file after EVERY completed run, fails on this hook file. -/
theorem hook_cursor_stale_on_empty_delta :
    (lookupHookFile c3Db1 "/h.jsonl").map HookFileRow.byte_offset = some 50 ∧
    (index_hook_file c3Db1 "/h.jsonl" 100 [c3Blank] 50 2 "t2").1.events_indexed
      = 0 ∧
    (lookupHookFile (index_hook_file c3Db1 "/h.jsonl" 100 [c3Blank] 50 2
        "t2").2 "/h.jsonl").map HookFileRow.byte_offset = some 50 := by
  exact ⟨by decide, by decide, by decide⟩

theorem tFold_sessions (fp : String) :
    ∀ (input : List TLineInput) (st : TLoopState × Db),
      ((input.foldl (tStep fp) st).2).sessions = (st.2).sessions := by
  intro input
  induction input with
  | nil => intro st; rfl
  | cons ln rest ih =>
      intro st
      rw [List.foldl_cons, ih]
      show (match (tNext fp st.1 ln).2 with
            | none => st.2
            | some e => insertOrReplaceLine st.2 e).sessions = (st.2).sessions
      cases (tNext fp st.1 ln).2 with
      | none => rfl
      | some e => rfl

theorem hFold_hookFiles (fp : String) :
    ∀ (input : List HLineInput) (st : HLoopState × Db),
      ((input.foldl (hStep fp) st).2).hookFiles = (st.2).hookFiles := by
  intro input
  induction input with
  | nil => intro st; rfl
  | cons ln rest ih =>
      intro st
      rw [List.foldl_cons, ih]
      show (match (hNext fp st.1 ln).2 with
            | none => st.2
            | some f => insertHookEvent st.2 f).hookFiles = (st.2).hookFiles
      cases (hNext fp st.1 ln).2 with
      | none => rfl
      | some f => rfl

theorem find?_filter_append {α : Type} (key : α → String) (rows : List α) (r : α) :
    ((rows.filter (fun x => key x ≠ key r)) ++ [r]).find?
      (fun x => key x = key r) = some r := by
  induction rows with
  | nil => simp [List.find?]
  | cons a rest ih =>
      by_cases ha : key a = key r
      · simpa [List.filter, ha] using ih
      · simpa [List.filter, ha, List.find?] using ih

theorem find?_map_update {α : Type} (key : α → String) (upd : α → α)
    (hkey : ∀ x, key (upd x) = key x) (p : String) :
    ∀ rows : List α,
      (rows.map (fun r => if key r = p then upd r else r)).find?
          (fun r => key r = p) =
        (rows.find? (fun r => key r = p)).map upd := by
  intro rows
  induction rows with
  | nil => simp
  | cons a rest ih =>
      by_cases ha : key a = p
      · simp [List.find?, ha, hkey]
      · simp [List.find?, ha, ih]

/-- A hook run that ends with an empty accumulated session id and zero
indexed events takes the skip branch: no cursor row is written or updated,
so `hook_files` is returned exactly as it was. -/
theorem index_hook_file_skip_hookFiles (db : Db) (fp : String) (fileSize : Nat)
    (input : List HLineInput) (fromOff : Nat) (startLine : Int) (now : String) :
    (index_hook_file db fp fileSize input fromOff startLine now).1.session_id
      = "" →
    (index_hook_file db fp fileSize input fromOff startLine now).1.events_indexed
      = 0 →
    (index_hook_file db fp fileSize input fromOff startLine now).2.hookFiles =
      db.hookFiles := by
  intro hsid hidx
  by_cases hle : fromOff ≥ fileSize
  · simp only [index_hook_file]
    rw [if_pos hle]
  · simp only [index_hook_file] at hsid hidx ⊢
    rw [if_neg hle] at hsid hidx ⊢
    simp only at hsid hidx
    rw [if_pos ⟨hsid, hidx⟩]
    exact hFold_hookFiles fp input _

/-- C3 (amended): for every indexed transcript the stored cursor equals the
file size observed at the start of the run, on both the first-index
(INSERT OR REPLACE) and delta (UPDATE of an existing row) paths; for hook
files the same holds only for runs that indexed at least one event
(first-index path, or delta path over an existing cursor row), while a run
that indexes zero hook events skips the cursor write entirely, leaving
`hook_files` byte for byte as it was -- stale below the observed file size
when the growth was blank or malformed; and re-running ingest on a file
that has not grown returns zero entries with the offset unchanged,
inserting nothing (the store is returned untouched). -/
theorem cursor_discipline :
    (∀ (db : Db) (fp : String) (fileSize : Nat) (input : List TLineInput)
       (fromOff : Nat) (startLine : Int) (now : String),
       fileSize ≤ fromOff →
       index_transcript_file db fp fileSize input fromOff startLine now =
         (⟨0, fromOff, ""⟩, db)) ∧
    (∀ (db : Db) (fp : String) (fileSize : Nat) (input : List HLineInput)
       (fromOff : Nat) (startLine : Int) (now : String),
       fileSize ≤ fromOff →
       index_hook_file db fp fileSize input fromOff startLine now =
         (⟨0, fromOff, ""⟩, db)) ∧
    (∀ (db : Db) (fp : String) (fileSize : Nat) (input : List TLineInput)
       (startLine : Int) (now : String),
       0 < fileSize →
       (lookupSession (index_transcript_file db fp fileSize input 0 startLine now).2
           fp).map SessionRow.byte_offset = some fileSize) ∧
    (∀ (db : Db) (fp : String) (fileSize : Nat) (input : List TLineInput)
       (fromOff : Nat) (startLine : Int) (now : String),
       0 < fromOff → fromOff < fileSize →
       (lookupSession db fp).isSome = true →
       (lookupSession (index_transcript_file db fp fileSize input fromOff startLine now).2
           fp).map SessionRow.byte_offset = some fileSize) ∧
    (∀ (db : Db) (fp : String) (fileSize : Nat) (input : List HLineInput)
       (startLine : Int) (now : String),
       0 < fileSize →
       1 ≤ (index_hook_file db fp fileSize input 0 startLine now).1.events_indexed →
       (lookupHookFile (index_hook_file db fp fileSize input 0 startLine now).2
           fp).map HookFileRow.byte_offset = some fileSize) ∧
    (∀ (db : Db) (fp : String) (fileSize : Nat) (input : List HLineInput)
       (fromOff : Nat) (startLine : Int) (now : String),
       0 < fromOff → fromOff < fileSize →
       1 ≤ (index_hook_file db fp fileSize input fromOff startLine now).1.events_indexed →
       (lookupHookFile db fp).isSome = true →
       (lookupHookFile (index_hook_file db fp fileSize input fromOff startLine now).2
           fp).map HookFileRow.byte_offset = some fileSize) ∧
    (∀ (db : Db) (fp : String) (fileSize : Nat) (input : List HLineInput)
       (fromOff : Nat) (startLine : Int) (now : String),
       fromOff < fileSize →
       (index_hook_file db fp fileSize input fromOff startLine now).1.session_id
         = "" →
       (index_hook_file db fp fileSize input fromOff startLine
           now).1.events_indexed = 0 →
       (index_hook_file db fp fileSize input fromOff startLine now).2.hookFiles =
         db.hookFiles) := by
  have upsertS : ∀ (d : Db) (r : SessionRow) (fp : String) (sz : Nat),
      r.file_path = fp → r.byte_offset = sz →
      (lookupSession (upsertSession d r) fp).map SessionRow.byte_offset = some sz := by
    intro d r fp sz h1 h2
    subst h1
    show ((d.sessions.filter (fun x => x.file_path ≠ r.file_path) ++ [r]).find?
      (fun x => x.file_path = r.file_path)).map SessionRow.byte_offset = some sz
    rw [find?_filter_append SessionRow.file_path d.sessions r]
    simp [h2]
  have upsertH : ∀ (d : Db) (r : HookFileRow) (fp : String) (sz : Nat),
      r.file_path = fp → r.byte_offset = sz →
      (lookupHookFile (upsertHookFile d r) fp).map HookFileRow.byte_offset = some sz := by
    intro d r fp sz h1 h2
    subst h1
    show ((d.hookFiles.filter (fun x => x.file_path ≠ r.file_path) ++ [r]).find?
      (fun x => x.file_path = r.file_path)).map HookFileRow.byte_offset = some sz
    rw [find?_filter_append HookFileRow.file_path d.hookFiles r]
    simp [h2]
  have updS : ∀ (d : Db) (fp : String) (c : Int) (sz : Nat) (ts : Option String)
      (now : String), (lookupSession d fp).isSome = true →
      (lookupSession (updateSession d fp c sz ts now) fp).map
        SessionRow.byte_offset = some sz := by
    intro d fp c sz ts now hsome
    obtain ⟨r0, hr0⟩ := Option.isSome_iff_exists.mp hsome
    show ((d.sessions.map (fun r => if r.file_path = fp then
        { r with line_count := c, byte_offset := sz,
                 last_timestamp := ts, indexed_at := now } else r)).find?
      (fun r => r.file_path = fp)).map SessionRow.byte_offset = some sz
    rw [find?_map_update SessionRow.file_path
      (fun r => { r with line_count := c, byte_offset := sz,
                         last_timestamp := ts, indexed_at := now })
      (fun x => rfl) fp d.sessions]
    have : d.sessions.find? (fun r => r.file_path = fp) = some r0 := hr0
    rw [this]
    simp
  have updH : ∀ (d : Db) (fp : String) (c : Int) (sz : Nat) (ts : Option String)
      (now : String), (lookupHookFile d fp).isSome = true →
      (lookupHookFile (updateHookFile d fp c sz ts now) fp).map
        HookFileRow.byte_offset = some sz := by
    intro d fp c sz ts now hsome
    obtain ⟨r0, hr0⟩ := Option.isSome_iff_exists.mp hsome
    show ((d.hookFiles.map (fun r => if r.file_path = fp then
        { r with event_count := c, byte_offset := sz,
                 last_timestamp := ts, indexed_at := now } else r)).find?
      (fun r => r.file_path = fp)).map HookFileRow.byte_offset = some sz
    rw [find?_map_update HookFileRow.file_path
      (fun r => { r with event_count := c, byte_offset := sz,
                         last_timestamp := ts, indexed_at := now })
      (fun x => rfl) fp d.hookFiles]
    have : d.hookFiles.find? (fun r => r.file_path = fp) = some r0 := hr0
    rw [this]
    simp
  refine ⟨?_, ?_, ?_, ?_, ?_, ?_, ?_⟩
  · intro db fp fileSize input fromOff startLine now hle
    simp only [index_transcript_file]
    rw [if_pos hle]
  · intro db fp fileSize input fromOff startLine now hle
    simp only [index_hook_file]
    rw [if_pos hle]
  · intro db fp fileSize input startLine now hsz
    simp only [index_transcript_file]
    rw [if_neg (by omega)]
    simp only [if_true]
    exact upsertS _ _ fp fileSize rfl rfl
  · intro db fp fileSize input fromOff startLine now h1 h2 hsome
    simp only [index_transcript_file]
    rw [if_neg (by omega), if_neg (by omega)]
    refine updS _ fp _ fileSize _ now ?_
    show ((List.foldl (tStep fp)
      (⟨0, "", none, none, none, startLine, decide (0 < fromOff)⟩, db) input).2.sessions.find?
        (fun r => r.file_path = fp)).isSome = true
    rw [tFold_sessions fp input _]
    exact hsome
  · intro db fp fileSize input startLine now hsz hcnt
    simp only [index_hook_file] at hcnt ⊢
    rw [if_neg (by omega)] at hcnt ⊢
    simp only at hcnt
    rw [if_neg (fun hc => by omega)]
    simp only [if_true]
    exact upsertH _ _ fp fileSize rfl rfl
  · intro db fp fileSize input fromOff startLine now h1 h2 hcnt hsome
    simp only [index_hook_file] at hcnt ⊢
    rw [if_neg (by omega)] at hcnt ⊢
    simp only at hcnt
    rw [if_neg (fun hc => by omega), if_neg (by omega)]
    refine updH _ fp _ fileSize _ now ?_
    show ((List.foldl (hStep fp)
      (⟨0, "", none, none, startLine, decide (0 < fromOff)⟩, db) input).2.hookFiles.find?
        (fun r => r.file_path = fp)).isSome = true
    rw [hFold_hookFiles fp input _]
    exact hsome
  · intro db fp fileSize input fromOff startLine now hlt hsid hidx
    exact index_hook_file_skip_hookFiles db fp fileSize input fromOff startLine
      now hsid hidx

/-! ### Synthetic uuids and idempotent re-ingest (C10) -/

/-- The `(session_id, uuid)` natural key of a `lines` row. -/
def lineKey (r : StoredLine) : String × String := (r.session_id, r.uuid)

/-- The natural key carried by one INSERT OR REPLACE. -/
def insKey (e : LineInsert) : String × String := (e.session_id, e.uuid)

/-- The set of natural keys present in `lines`. -/
def lineKeysF (db : Db) : Finset (String × String) := (db.lines.map lineKey).toFinset

theorem map_lineKey_filter (a b : String) :
    ∀ rows : List StoredLine,
      ((rows.filter (fun r => ¬ (r.session_id = a ∧ r.uuid = b))).map lineKey)
        = (rows.map lineKey).filter (fun k => ¬ (k.1 = a ∧ k.2 = b)) := by
  intro rows
  induction rows with
  | nil => rfl
  | cons r rest ih =>
      by_cases h : r.session_id = a ∧ r.uuid = b
      · simp only [List.filter, List.map]
        rw [show (decide ¬ (r.session_id = a ∧ r.uuid = b)) = false by simp [h],
            show (decide ¬ ((lineKey r).1 = a ∧ (lineKey r).2 = b)) = false by
              simp [lineKey, h]]
        exact ih
      · simp only [List.filter, List.map]
        rw [show (decide ¬ (r.session_id = a ∧ r.uuid = b)) = true by simp [h],
            show (decide ¬ ((lineKey r).1 = a ∧ (lineKey r).2 = b)) = true by
              simp [lineKey, h]]
        simp only [List.map]
        rw [ih]

theorem keysF_insertOrReplace (db : Db) (e : LineInsert) :
    lineKeysF (insertOrReplaceLine db e) = lineKeysF db ∪ {insKey e} := by
  show ((db.lines.filter
      (fun r : StoredLine => ¬ (r.session_id = e.session_id ∧ r.uuid = e.uuid))
      ++ [_]).map lineKey).toFinset = _
  rw [List.map_append, List.toFinset_append, map_lineKey_filter]
  ext x
  by_cases hx : x = insKey e
  · subst hx
    simp [lineKey, insKey, lineKeysF]
  · have hx' : ¬ (x.1 = e.session_id ∧ x.2 = e.uuid) := by
      intro hc
      exact hx (Prod.ext hc.1 hc.2)
    constructor
    · intro hmem
      rcases Finset.mem_union.mp hmem with h1 | h1
      · refine Finset.mem_union_left _ ?_
        rw [List.mem_toFinset] at h1
        show x ∈ (db.lines.map lineKey).toFinset
        rw [List.mem_toFinset]
        exact (List.mem_filter.mp h1).1
      · exact absurd (by simpa [lineKey, insKey] using h1) hx
    · intro hmem
      rcases Finset.mem_union.mp hmem with h1 | h1
      · refine Finset.mem_union_left _ ?_
        rw [List.mem_toFinset, List.mem_filter]
        have h2 : x ∈ db.lines.map lineKey := by
          rw [← List.mem_toFinset]; exact h1
        refine ⟨h2, ?_⟩
        simp only [decide_eq_true_eq]
        exact hx'
      · exact absurd (Finset.mem_singleton.mp h1) hx

theorem nodupKeys_insertOrReplace (db : Db) (e : LineInsert)
    (h : (db.lines.map lineKey).Nodup) :
    ((insertOrReplaceLine db e).lines.map lineKey).Nodup := by
  show ((db.lines.filter
      (fun r : StoredLine => ¬ (r.session_id = e.session_id ∧ r.uuid = e.uuid))
      ++ [_]).map lineKey).Nodup
  rw [List.map_append, map_lineKey_filter, List.nodup_append]
  refine ⟨h.filter _, List.nodup_singleton _, ?_⟩
  intro x hmem hx
  have h1 := (List.mem_filter.mp hmem).2
  have h2 : x = ((e.session_id, e.uuid) : String × String) := by
    simpa [lineKey] using hx
  rw [h2] at h1
  simp at h1

/-- The key set the loop inserts, as a function of the loop state alone. -/
def tKeys (fp : String) : TLoopState → List TLineInput → Finset (String × String)
| _, [] => ∅
| σ, ln :: rest =>
    (match (tNext fp σ ln).2 with
     | none => (∅ : Finset (String × String))
     | some e => {insKey e}) ∪ tKeys fp (tNext fp σ ln).1 rest

theorem tFold_keysF (fp : String) :
    ∀ (input : List TLineInput) (σ : TLoopState) (db : Db),
      lineKeysF ((input.foldl (tStep fp) (σ, db)).2)
        = lineKeysF db ∪ tKeys fp σ input := by
  intro input
  induction input with
  | nil => intro σ db; simp [tKeys]
  | cons ln rest ih =>
      intro σ db
      rw [List.foldl_cons]
      cases htn : (tNext fp σ ln).2 with
      | none =>
          have hstep : tStep fp (σ, db) ln = ((tNext fp σ ln).1, db) := by
            simp [tStep, htn]
          rw [hstep, ih]
          simp [tKeys, htn]
      | some e =>
          have hstep : tStep fp (σ, db) ln =
              ((tNext fp σ ln).1, insertOrReplaceLine db e) := by
            simp [tStep, htn]
          rw [hstep, ih, keysF_insertOrReplace]
          simp only [tKeys, htn]
          rw [Finset.union_assoc]

theorem tFold_nodup (fp : String) :
    ∀ (input : List TLineInput) (σ : TLoopState) (db : Db),
      (db.lines.map lineKey).Nodup →
      (((input.foldl (tStep fp) (σ, db)).2).lines.map lineKey).Nodup := by
  intro input
  induction input with
  | nil => intro σ db h; exact h
  | cons ln rest ih =>
      intro σ db h
      rw [List.foldl_cons]
      cases htn : (tNext fp σ ln).2 with
      | none =>
          have hstep : tStep fp (σ, db) ln = ((tNext fp σ ln).1, db) := by
            simp [tStep, htn]
          rw [hstep]
          exact ih _ _ h
      | some e =>
          have hstep : tStep fp (σ, db) ln =
              ((tNext fp σ ln).1, insertOrReplaceLine db e) := by
            simp [tStep, htn]
          rw [hstep]
          exact ih _ _ (nodupKeys_insertOrReplace db e h)

theorem lines_length_eq_card (db : Db) (h : (db.lines.map lineKey).Nodup) :
    db.lines.length = (lineKeysF db).card := by
  unfold lineKeysF
  rw [List.toFinset_card_of_nodup h, List.length_map]

/-- Re-running the loop over the same input and initial state, on any store
whose `lines` equal the first run's output, leaves the row count unchanged:
the inserted key set is the same, so the key sets (and with them the counts,
keys being unique) coincide. -/
theorem reingest_length (fp : String) (input : List TLineInput) (σ0 : TLoopState)
    (db d1 : Db) (hnd : (db.lines.map lineKey).Nodup)
    (h1 : d1.lines = ((input.foldl (tStep fp) (σ0, db)).2).lines) :
    ((input.foldl (tStep fp) (σ0, d1)).2).lines.length =
      ((input.foldl (tStep fp) (σ0, db)).2).lines.length := by
  have hnd1 : (d1.lines.map lineKey).Nodup := by
    rw [h1]; exact tFold_nodup fp input σ0 db hnd
  have hkd1 : lineKeysF d1 = lineKeysF ((input.foldl (tStep fp) (σ0, db)).2) := by
    unfold lineKeysF; rw [h1]
  rw [lines_length_eq_card _ (tFold_nodup fp input σ0 d1 hnd1),
      lines_length_eq_card _ (tFold_nodup fp input σ0 db hnd),
      tFold_keysF fp input σ0 d1, tFold_keysF fp input σ0 db, hkd1,
      tFold_keysF fp input σ0 db, Finset.union_assoc, Finset.union_self]

/-- C3 witness: concrete one-line transcript and hook files.  First ingests
store the file size as the cursor on the upsert paths, event-carrying delta
runs update it on the UPDATE paths, no-growth re-runs are no-ops, and a
blank-growth hook delta run (zero events) leaves the cursor rows untouched. -/
theorem cursor_discipline_witness :
    (lookupSession (index_transcript_file emptyDb "/t.jsonl" 100 [c2Line] 0 1
        "now").2 "/t.jsonl").map SessionRow.byte_offset = some 100 ∧
    (lookupSession (index_transcript_file c2Db1 "/t.jsonl" 200 [c2Line] 100 2
        "now").2 "/t.jsonl").map SessionRow.byte_offset = some 200 ∧
    index_transcript_file c2Db1 "/t.jsonl" 100 [c2Line] 100 2 "now" =
      (⟨0, 100, ""⟩, c2Db1) ∧
    (lookupHookFile (index_hook_file emptyDb "/h.jsonl" 50 [c3Ev] 0 1 "t1").2
        "/h.jsonl").map HookFileRow.byte_offset = some 50 ∧
    (lookupHookFile (index_hook_file c3Db1 "/h.jsonl" 100 [c3Ev] 50 2 "t2").2
        "/h.jsonl").map HookFileRow.byte_offset = some 100 ∧
    index_hook_file c3Db1 "/h.jsonl" 50 [c3Ev] 50 2 "t2" = (⟨0, 50, ""⟩, c3Db1) ∧
    (index_hook_file c3Db1 "/h.jsonl" 100 [c3Blank] 50 2 "t2").2.hookFiles =
      c3Db1.hookFiles := by
  exact ⟨cursor_discipline.2.2.1 emptyDb "/t.jsonl" 100 [c2Line] 1 "now"
      (by decide),
    cursor_discipline.2.2.2.1 c2Db1 "/t.jsonl" 200 [c2Line] 100 2 "now"
      (by decide) (by decide) (by decide),
    cursor_discipline.1 c2Db1 "/t.jsonl" 100 [c2Line] 100 2 "now" (by decide),
    cursor_discipline.2.2.2.2.1 emptyDb "/h.jsonl" 50 [c3Ev] 1 "t1"
      (by decide) (by decide),
    cursor_discipline.2.2.2.2.2.1 c3Db1 "/h.jsonl" 100 [c3Ev] 50 2 "t2"
      (by decide) (by decide) (by decide) (by decide),
    cursor_discipline.2.1 c3Db1 "/h.jsonl" 50 [c3Ev] 50 2 "t2" (by decide),
    cursor_discipline.2.2.2.2.2.2 c3Db1 "/h.jsonl" 100 [c3Blank] 50 2 "t2"
      (by decide) (by decide) (by decide)⟩

/-- C10: a transcript JSONL line that parses as an object but lacks a string
`uuid` field is still inserted, with the synthetic uuid `line-{line_number}`;
consequently re-ingesting any file from offset 0 with the same start line
leaves the `lines` row count unchanged. -/
theorem synthetic_uuid_and_reingest :
    (∀ (db : Db) (fp : String) (fileSize : Nat) (p : TParsed) (b : Bool)
       (s : Int) (now : String),
       0 < fileSize → p.uuid = none → p.type_.getD "unknown" ∉ SKIP_TYPES →
       (index_transcript_file db fp fileSize [⟨b, false, some p⟩] 0 s
           now).1.lines_indexed = 1 ∧
       ∃ r ∈ (index_transcript_file db fp fileSize [⟨b, false, some p⟩] 0 s
           now).2.lines,
         r.uuid = "line-" ++ toString s ∧ r.line_number = s) ∧
    (∀ (db : Db) (fp : String) (fileSize : Nat) (input : List TLineInput)
       (s : Int) (now : String), (db.lines.map lineKey).Nodup →
       ((index_transcript_file
           (index_transcript_file db fp fileSize input 0 s now).2
           fp fileSize input 0 s now).2).lines.length =
         ((index_transcript_file db fp fileSize input 0 s now).2).lines.length) := by
  constructor
  · intro db fp fileSize p b s now hsz huuid hskip
    simp only [index_transcript_file]
    rw [if_neg (by omega)]
    simp only [if_true, List.foldl_cons, List.foldl_nil, tStep, tNext]
    simp only [show (decide ((0:Nat) < 0)) = false from rfl, huuid, hskip,
      Bool.false_eq_true, false_and, if_false, if_neg hskip]
    refine ⟨trivial, ?_⟩
    refine ⟨_, List.mem_append_right _ (List.mem_singleton.mpr rfl), rfl, rfl⟩
  · intro db fp fileSize input s now hnd
    by_cases hsz : (0:Nat) ≥ fileSize
    · simp [index_transcript_file, hsz]
    · simp only [index_transcript_file]
      rw [if_neg hsz, if_neg hsz]
      simp only [if_true]
      exact reingest_length fp input _ db _ hnd rfl

/-- A parsed transcript object with no `uuid` field. -/
def c10p : TParsed :=
  ⟨some "s1", none, some "2024-01-01T00:00:00Z", some "user", none, none, none,
   none, none, none, "hello", "raw"⟩

/-- Witness for C10 at a concrete uuid-less line ingested twice. -/
theorem synthetic_uuid_and_reingest_witness :
    c10p.uuid = none ∧ c10p.type_.getD "unknown" ∉ SKIP_TYPES ∧
    ((index_transcript_file emptyDb "/t" 10 [⟨true, false, some c10p⟩] 0 5
        "now").1.lines_indexed = 1 ∧
     ∃ r ∈ (index_transcript_file emptyDb "/t" 10 [⟨true, false, some c10p⟩] 0 5
        "now").2.lines,
       r.uuid = "line-" ++ toString (5 : Int) ∧ r.line_number = 5) ∧
    ((index_transcript_file
        (index_transcript_file emptyDb "/t" 10 [⟨true, false, some c10p⟩] 0 5 "now").2
        "/t" 10 [⟨true, false, some c10p⟩] 0 5 "now").2).lines.length =
      ((index_transcript_file emptyDb "/t" 10 [⟨true, false, some c10p⟩] 0 5
        "now").2).lines.length := by
  refine ⟨rfl, by decide, ?_, ?_⟩
  · exact synthetic_uuid_and_reingest.1 emptyDb "/t" 10 c10p true 5 "now"
      (by decide) rfl (by decide)
  · exact synthetic_uuid_and_reingest.2 emptyDb "/t" 10
      [⟨true, false, some c10p⟩] 5 "now" (by simp [emptyDb])

/-! ## Reader version check (crates/transcript-db/src/connection.rs) -/

/-- Reader-side error variants (`DbError`); the payloads not inspected by
claims are reduced to a message string. -/
inductive DbError where
| notFound (path : String)
| sqlite (msg : String)
| notInitialized
| versionMismatch (expected found : Int)
deriving DecidableEq

/-- The reader's expected database version. -/
def READER_DB_VERSION : Int := 8

/-- `TranscriptDb::check_version`: `stored` is the integer-cast `version`
metadata row when present (`.ok()` turns a missing row into `none`). -/
def check_version (stored : Option Int) : Except DbError Unit :=
  match stored with
  | none => Except.error DbError.notInitialized
  | some v =>
      if v < READER_DB_VERSION then
        Except.error (DbError.versionMismatch READER_DB_VERSION v)
      else Except.ok ()

/-- C7 counterexample: a stored version strictly greater than the reader's
expected constant (9 > 8) is accepted -- `check_version` returns `Ok`,
contradicting the claim that the reader fails with `VersionMismatch`. -/
theorem check_version_high_accepted :
    check_version (some 9) = Except.ok () ∧
    check_version (some 9) ≠
      Except.error (DbError.versionMismatch READER_DB_VERSION 9) := by
  refine ⟨rfl, ?_⟩
  simp [check_version, READER_DB_VERSION]

/-- C7 (amended): opening a read-only handle fails with
`VersionMismatch{expected, found}` exactly when the stored version is
strictly LOWER than the reader's expected constant; a stored version greater
than or equal to it is accepted. -/
theorem check_version_low_rejected_high_accepted (v : Int) :
    (v < READER_DB_VERSION →
       check_version (some v) =
         Except.error (DbError.versionMismatch READER_DB_VERSION v)) ∧
    (READER_DB_VERSION ≤ v → check_version (some v) = Except.ok ()) := by
  constructor
  · intro h
    simp [check_version, h]
  · intro h
    simp [check_version, not_lt.mpr h]

/-- Witness for C7 at versions 5 (rejected) and 9 (accepted). -/
theorem check_version_witness :
    check_version (some 5) =
      Except.error (DbError.versionMismatch READER_DB_VERSION 5) ∧
    check_version (some 9) = Except.ok () := by
  exact ⟨(check_version_low_rejected_high_accepted 5).1 (by decide),
         (check_version_low_rejected_high_accepted 9).2 (by decide)⟩

/-! ## FTS line search (crates/transcript-db/src/queries.rs)

`search_lines` tokenises the query on whitespace, strips embedded double
quotes, wraps each token in quotes and joins with " OR ", then runs
`... WHERE lines_fts MATCH ?`.  SQLite's FTS5 query grammar requires at
least one phrase: the EMPTY query string is rejected with
`fts5: syntax error near ""` (verified against SQLite 3.40), which rusqlite
surfaces as `DbError::Sqlite`. -/

/-- `str::split_whitespace`: maximal runs of non-whitespace characters
(ASCII whitespace modelled; yields no empty tokens). -/
def splitWsAux : List Char → List Char → List String
| [], acc => if acc = [] then [] else [String.mk acc.reverse]
| c :: cs, acc =>
    if c.isWhitespace then
      if acc = [] then splitWsAux cs []
      else String.mk acc.reverse :: splitWsAux cs []
    else splitWsAux cs (c :: acc)

/-- Whitespace tokenisation of the query. -/
def split_whitespace (s : String) : List String := splitWsAux s.data []

/-- `w.replace('"', "")`: drop every embedded double quote. -/
def stripQuotes (w : String) : String :=
  String.mk (w.data.filter (fun c => c ≠ '"'))

/-- `join(" OR ")`. -/
def joinOr : List String → String
| [] => ""
| [w] => w
| w :: rest => w ++ " OR " ++ joinOr rest

/-- The FTS MATCH expression `search_lines` builds from the user query. -/
def fts_query_of (q : String) : String :=
  joinOr (((split_whitespace q).filter (fun w => w ≠ "")).map
    (fun w => "\"" ++ stripQuotes w ++ "\""))

/-- The FTS5 front-end of the MATCH evaluation: an empty query string is a
syntax error; a non-empty query built by `fts_query_of` is a well-formed
OR-of-phrases query and returns the matching rows (matching modelled as
substring containment; the bm25 ordering is irrelevant here). -/
def ftsMatchRows (rows : List FtsEntry) (fq : String) : Except DbError (List FtsEntry) :=
  if fq = "" then Except.error (DbError.sqlite "fts5: syntax error near \"\"")
  else Except.ok (rows.filter (fun r =>
    ((fq.splitOn " OR ").map (fun ph => (ph.replace "\"" ""))).any
      (fun ph => (r.content.splitOn ph).length ≥ 2)))

/-- `search_lines` down to the MATCH evaluation (the row join and limit do
not matter for the empty-query behaviour). -/
def search_lines (db : Db) (query : String) : Except DbError (List FtsEntry) :=
  ftsMatchRows db.linesFts (fts_query_of query)

deriving instance DecidableEq for Except

/-- C8 evaluation at the failing inputs: an empty or all-whitespace query
tokenises to no tokens, the built MATCH expression is the empty string, and
the search returns SQLite's FTS5 syntax error instead of an empty result
list. -/
theorem search_lines_empty_query_errors :
    fts_query_of "" = "" ∧ fts_query_of "  \t " = "" ∧
    search_lines emptyDb "" =
      Except.error (DbError.sqlite "fts5: syntax error near \"\"") ∧
    search_lines emptyDb "  \t " =
      Except.error (DbError.sqlite "fts5: syntax error near \"\"") ∧
    ∀ db : Db, search_lines db "  \t " =
      Except.error (DbError.sqlite "fts5: syntax error near \"\"") := by
  refine ⟨by decide, by decide, by decide, by decide, ?_⟩
  intro db
  show ftsMatchRows db.linesFts (fts_query_of "  \t ") = _
  rw [show fts_query_of "  \t " = "" from by decide]
  rfl

/-! ### Hook columns are stored untrimmed (C5) -/

/-- Trimming strictly changes a one-entry object holding an over-threshold
string under an unprotected key. -/
theorem trim_changes_single_obj (k : String) (n : Nat) (c : Char) (t : Nat)
    (hk : k ∉ FULL_PAYLOAD_FIELDS) (hc : csize c = 1) (hgt : t < n)
    (h542 : 542 < n) (hn : n < USIZE) :
    trim_value (.obj [(k, .str (String.mk (List.replicate n c)))]) t ≠
      .obj [(k, .str (String.mk (List.replicate n c)))] := by
  have hlen : bytelen (String.mk (List.replicate n c)) = n := by
    show bytelenL (List.replicate n c) = n
    rw [bytelenL_replicate, hc, Nat.mul_one]
  intro h
  have h3 : trim_value (.obj [(k, .str (String.mk (List.replicate n c)))]) t =
      Json.obj [(k, Json.str (trimmedLeaf (String.mk (List.replicate n c))))] := by
    show Json.obj (trimObjEntries [(k, .str (String.mk (List.replicate n c)))] t) = _
    simp only [trimObjEntries]
    rw [if_neg hk]
    simp only [trim_value]
    rw [if_pos (by rw [hlen]; omega)]
  rw [h3] at h
  have h4 : trimmedLeaf (String.mk (List.replicate n c)) =
      String.mk (List.replicate n c) := by
    simpa using h
  have h5 := trimmedLeaf_bytelen_le
    (s := String.mk (List.replicate n c)) (by rw [hlen]; exact hn)
  rw [h4, hlen] at h5
  omega

/-- The `input` payload of the C5 failing hook event: a 1030-byte command. -/
def c5Input : Json := .obj [("command", .str (String.mk (List.replicate 1030 'x')))]

/-- Its `context`: a 1030-byte string field. -/
def c5Ctx : Json := .obj [("usage", .str (String.mk (List.replicate 1030 'z')))]

/-- Its `handlerResults`: a 5000-byte string field (over the 4096-byte
handler threshold). -/
def c5HR : Json := .obj [("big-handler", .str (String.mk (List.replicate 5000 'y')))]

/-- The failing hook JSONL line: a PreToolUse of tool "Bash". -/
def c5Hline : HLineInput :=
  ⟨true, false, some ⟨some "s1", some "2024-01-01T00:00:00Z", some "PreToolUse",
    some "tu1", some "Bash", none, some c5HR, some c5Input, some c5Ctx,
    none, none, none⟩⟩

/-- C5 evaluation at the failing input: `index_hook_file` stores
`input_json`, `context_json` and `handler_results` as the plain untrimmed
serializations of the parsed sub-values (it never calls the content
trimmer), while the trimmer the claim prescribes would have changed every
one of them (for "Bash" at 1024 bytes, and handler results at 4096). -/
theorem hook_columns_stored_untrimmed :
    ((index_hook_file emptyDb "/h.hooks.jsonl" 100 [c5Hline] 0 1 "now").2.hookEvents.map
        (fun r => (r.tool_name, r.input_json, r.context_json, r.handler_results)))
      = [(some "Bash", some c5Input, some c5Ctx, some c5HR)] ∧
    trim_input_json c5Input "Bash" ≠ c5Input ∧
    trim_context_json c5Ctx ≠ c5Ctx ∧
    trim_handler_results c5HR ≠ c5HR := by
  refine ⟨rfl, ?_, ?_, ?_⟩
  · intro h
    have heq : trim_input_json c5Input "Bash" = trim_value c5Input LARGE_THRESHOLD := by
      simp [trim_input_json, FULL_PAYLOAD_TOOLS]
    rw [heq] at h
    exact trim_changes_single_obj "command" 1030 'x' LARGE_THRESHOLD
      (by decide) (by decide) (by decide) (by decide) (by decide) h
  · intro h
    exact trim_changes_single_obj "usage" 1030 'z' LARGE_THRESHOLD
      (by decide) (by decide) (by decide) (by decide) (by decide) h
  · intro h
    exact trim_changes_single_obj "big-handler" 5000 'y' HANDLER_THRESHOLD
      (by decide) (by decide) (by decide) (by decide) (by decide) h

end TranscriptIndex
